import Mathlib

/-!
# Verification of the cdspyreadme column-format inference and fixed-width codec

Shallow embedding of the core of the `cdspyreadme` package:

* `cdspyreadme/CDSColumn.py` — `FloatRepr`, the `CDSColumnFormatter` family
  (integer / float / string), and the `CDSColumn` descriptor
  (`parse`, `set_format`, `set_null_value`).
* `cdspyreadme/core.py` — the MRT header state machine (`__parseTable`),
  the byte-by-byte statistics pass (`__bytebybytes_statistics`), the bound
  annotation of `printByteByByte`, and `makeCDSTable`.

Python floats are modelled by their decimal textual rendering (idealized
exact-decimal semantics): a float value is the record of the sign, integer
digits, fraction digits and optional exponent of its `str()` rendering, and
re-formatting (`%f`, `%g`) is modelled digit-wise on that record.  Regexes
are modelled by hand-rolled matchers mirroring the leftmost-greedy,
backtracking semantics of `re.match` on the concrete patterns.
-/

/-! ## Character classes and basic helpers -/

def isDigitC (c : Char) : Bool := '0' ≤ c && c ≤ '9'

def isSignC (c : Char) : Bool := c = '+' || c = '-'

/-- Characters excluded from the `[^eE.]+` group of `REG_FLOAT`. -/
def stopG2 (c : Char) : Bool := c = 'e' || c = 'E' || c = '.'

/-- `\s` of Python `re` (the line models never contain newlines unless stated). -/
def isWS (c : Char) : Bool := c = ' ' || c = '\t' || c = '\n' || c = '\r'

def blanks (n : Nat) : List Char := List.replicate n ' '

/-- Right-align in a field of width `w` (Python format spec `>w`, no truncation). -/
def padLeft (w : Nat) (l : List Char) : List Char := blanks (w - l.length) ++ l

/-- Left-align in a field of width `w` (Python format spec `ws` on strings). -/
def padRight (w : Nat) (l : List Char) : List Char := l ++ blanks (w - l.length)

theorem padLeft_length (w : Nat) (l : List Char) (h : l.length ≤ w) :
    (padLeft w l).length = w := by
  simp [padLeft, blanks]; omega

theorem padRight_length (w : Nat) (l : List Char) (h : l.length ≤ w) :
    (padRight w l).length = w := by
  simp [padRight, blanks]; omega

/-! ## The `REG_FLOAT` regex of `FloatRepr`

`re.match("([+-]*)([^eE.]+)([.]*)([0-9]*)([eE]*-*)[0-9]*", value)`.

All adjacent pieces after group 2 have pairwise disjoint character classes
and every later piece is starred, so the match is leftmost-greedy with no
backtracking except in one spot: when the text after the greedy `[+-]*` run
cannot start `[^eE.]+` (it is empty or starts with `e`/`E`/`.`), Python
gives exactly one sign character back to group 2, which then matches it. -/

structure FloatGroups where
  g1 : List Char
  g2 : List Char
  g3 : List Char
  g4 : List Char
  g5 : List Char
deriving DecidableEq, Repr

/-- Group 2 (`[^eE.]+`), matched greedily. -/
def fg2 (rest : List Char) : List Char := rest.takeWhile (fun c => !(stopG2 c))

def fr2 (rest : List Char) : List Char := rest.drop (fg2 rest).length

/-- Group 3 (`[.]*`). -/
def fg3 (rest : List Char) : List Char := (fr2 rest).takeWhile (fun c => c = '.')

def fr3 (rest : List Char) : List Char := (fr2 rest).drop (fg3 rest).length

/-- Group 4 (`[0-9]*`). -/
def fg4 (rest : List Char) : List Char := (fr3 rest).takeWhile isDigitC

def fr4 (rest : List Char) : List Char := (fr3 rest).drop (fg4 rest).length

/-- Group 5 (`[eE]*-*`). -/
def fg5 (rest : List Char) : List Char :=
  (fr4 rest).takeWhile (fun c => c = 'e' || c = 'E') ++
    ((fr4 rest).drop ((fr4 rest).takeWhile (fun c => c = 'e' || c = 'E')).length).takeWhile
      (fun c => c = '-')

def regFloatTail (g1 rest : List Char) : Option FloatGroups :=
  if fg2 rest = [] then none
  else some ⟨g1, fg2 rest, fg3 rest, fg4 rest, fg5 rest⟩

def regFloatMatch (s : List Char) : Option FloatGroups :=
  match regFloatTail (s.takeWhile isSignC) (s.drop (s.takeWhile isSignC).length) with
  | some g => some g
  | none =>
    match (s.takeWhile isSignC).reverse with
    | [] => none
    | c :: rs => regFloatTail rs.reverse (c :: s.drop (s.takeWhile isSignC).length)

/-! ## `FloatRepr` (CDSColumn.py lines 145–249) -/

structure FloatRepr where
  type : Int
  sign : Bool
  e_width : Int
  e_precision : Int
  f_coma : Int
  f_dec : Int
deriving DecidableEq, Repr

def FloatRepr.SCI : Int := 0
def FloatRepr.DEC : Int := 1
def FloatRepr.MIXED : Int := 2

def FloatRepr.init : FloatRepr :=
  { type := -1, sign := false, e_width := -1, e_precision := -1, f_coma := -1, f_dec := -1 }

/-- The update `consume` performs on a successful regex match
(`vlen` is `len(value)`). -/
def consumeG (r : FloatRepr) (vlen : Int) (g : FloatGroups) : FloatRepr :=
  if g.g5.isEmpty then
    { r with
      sign := if r.sign = false then !g.g1.isEmpty else r.sign,
      f_coma := if r.f_coma < (g.g4.length : Int) then (g.g4.length : Int) else r.f_coma,
      f_dec := if r.f_dec < (g.g2.length : Int) then (g.g2.length : Int) else r.f_dec,
      type := if r.type = FloatRepr.MIXED ∨ r.type = FloatRepr.SCI
              then FloatRepr.MIXED else FloatRepr.DEC }
  else
    { r with
      sign := if r.sign = false then !g.g1.isEmpty else r.sign,
      e_precision := if r.e_precision < (g.g2.length : Int) + g.g4.length
                     then (g.g2.length : Int) + g.g4.length else r.e_precision,
      e_width := if r.e_width < vlen then vlen else r.e_width,
      type := if r.type = FloatRepr.MIXED ∨ r.type = FloatRepr.DEC
              then FloatRepr.MIXED else FloatRepr.SCI }

/-- `FloatRepr.consume` — one textual value updates the accumulator. -/
def FloatRepr.consume (r : FloatRepr) (value : String) : Except String FloatRepr :=
  match regFloatMatch value.data with
  | none => .error (value ++ " is not a float number")
  | some g => .ok (consumeG r value.length g)

def FloatRepr.consumeList (r : FloatRepr) : List String → Except String FloatRepr
  | [] => .ok r
  | v :: vs =>
    match r.consume v with
    | .error e => .error e
    | .ok r2 => r2.consumeList vs

/-- `FloatRepr.width` (lines 207–218). -/
def FloatRepr.width (r : FloatRepr) : Int :=
  if r.type = FloatRepr.SCI then r.e_width
  else
    let w := r.f_dec + r.f_coma + 1
    let w := if r.sign then w + 1 else w
    if r.type = FloatRepr.DEC then w
    else if w > r.e_width then w else r.e_width

/-- `FloatRepr.precision` (lines 220–229). -/
def FloatRepr.precision (r : FloatRepr) : Int :=
  if r.type = FloatRepr.SCI then r.e_precision
  else
    let w := r.f_dec + r.f_coma
    if r.type = FloatRepr.DEC then w
    else if w > r.e_precision then w else r.e_precision

/-- `FloatRepr.fortran_format` (lines 231–239).  In the SCI branch the code
reads `self.ePrecision`, an attribute that does not exist anywhere in the
class (the field is `e_precision`), so the call raises `AttributeError`;
modelled as `Except.error`. -/
def FloatRepr.fortran_format (r : FloatRepr) : Except String String :=
  if r.type = FloatRepr.SCI then
    .error "AttributeError: FloatRepr object has no attribute ePrecision"
  else if r.type = FloatRepr.MIXED then
    .ok ("E" ++ toString r.width ++ "." ++ toString r.precision)
  else
    .ok ("F" ++ toString r.width ++ "." ++ toString r.f_coma)

/-- `FloatRepr.c_format` (lines 241–249); the SCI branch reads the same
non-existent `self.ePrecision` attribute. -/
def FloatRepr.c_format (r : FloatRepr) : Except String String :=
  if r.type = FloatRepr.SCI then
    .error "AttributeError: FloatRepr object has no attribute ePrecision"
  else if r.type = FloatRepr.MIXED then
    .ok (toString r.width ++ "." ++ toString (r.precision + 1) ++ "g")
  else
    .ok (toString r.width ++ "." ++ toString r.f_coma ++ "f")

/-- Significant-digit count the regex assigns to a textual value
(`len(group 2) + len(group 4)`, identical formula for the decimal and the
scientific branch of `consume`). -/
def valuePrec (v : String) : Int :=
  match regFloatMatch v.data with
  | some g => g.g2.length + g.g4.length
  | none => 0

/-- Does `consume` classify the value into the scientific branch? -/
def isSciStr (v : String) : Bool :=
  match regFloatMatch v.data with
  | some g => !g.g5.isEmpty
  | none => false

/-! ## Lemmas about `consume` -/

theorem regFloatTail_g2 {g1 rest : List Char} {g : FloatGroups}
    (h : regFloatTail g1 rest = some g) : g.g2 ≠ [] := by
  unfold regFloatTail at h
  split at h
  · exact absurd h (by simp)
  · rename_i hne
    cases h
    exact hne

theorem regFloatMatch_nonempty {s : List Char} {g : FloatGroups}
    (h : regFloatMatch s = some g) : g.g2 ≠ [] ∧ s ≠ [] := by
  unfold regFloatMatch at h
  constructor
  · split at h
    · cases h; exact regFloatTail_g2 (by assumption)
    · split at h
      · exact absurd h (by simp)
      · exact regFloatTail_g2 h
  · intro hs
    subst hs
    simp [regFloatTail, fg2] at h

theorem consume_eq_ok {r r2 : FloatRepr} {v : String} :
    r.consume v = .ok r2 ↔
      ∃ g, regFloatMatch v.data = some g ∧ r2 = consumeG r v.length g := by
  unfold FloatRepr.consume
  cases hm : regFloatMatch v.data with
  | none => simp
  | some g => simp [eq_comm]

/-- The structural invariant `consume` maintains. -/
def FloatRepr.Inv (r : FloatRepr) : Prop :=
  ((r.type = FloatRepr.SCI ∨ r.type = FloatRepr.MIXED) → 1 ≤ r.e_width ∧ 1 ≤ r.e_precision) ∧
  ((r.type = FloatRepr.DEC ∨ r.type = FloatRepr.MIXED) → 1 ≤ r.f_dec ∧ 0 ≤ r.f_coma) ∧
  (r.type = -1 ∨ r.type = 0 ∨ r.type = 1 ∨ r.type = 2)

theorem FloatRepr.init_inv : FloatRepr.init.Inv := by
  refine ⟨?_, ?_, ?_⟩ <;> simp [FloatRepr.init, FloatRepr.SCI, FloatRepr.DEC, FloatRepr.MIXED]

theorem consumeG_inv {r : FloatRepr} {vlen : Int} {g : FloatGroups}
    (hg2 : g.g2 ≠ []) (hvlen : 1 ≤ vlen) (hi : r.Inv) : (consumeG r vlen g).Inv := by
  have hg2len : 1 ≤ (g.g2.length : Int) := by
    have := List.length_pos.mpr hg2; omega
  have hg4len : 0 ≤ (g.g4.length : Int) := by positivity
  obtain ⟨hiS, hiD, hiT⟩ := hi
  unfold consumeG FloatRepr.Inv
  split <;> simp only [FloatRepr.SCI, FloatRepr.DEC, FloatRepr.MIXED] at *
  · -- decimal branch
    refine ⟨?_, ?_, ?_⟩
    · intro hty
      split at hty
      · rename_i hor
        rcases hor with h1 | h1
        · exact hiS (Or.inr h1)
        · exact hiS (Or.inl h1)
      · omega
    · intro _
      constructor
      · split <;> omega
      · split <;> omega
    · split <;> omega
  · -- scientific branch
    refine ⟨?_, ?_, ?_⟩
    · intro _
      constructor
      · split <;> omega
      · split <;> omega
    · intro hty
      split at hty
      · rename_i hor
        rcases hor with h1 | h1
        · exact hiD (Or.inr h1)
        · exact hiD (Or.inl h1)
      · omega
    · split <;> omega

theorem consumeG_mono {r : FloatRepr} {vlen : Int} {g : FloatGroups} :
    r.e_width ≤ (consumeG r vlen g).e_width ∧
    r.e_precision ≤ (consumeG r vlen g).e_precision ∧
    r.f_dec ≤ (consumeG r vlen g).f_dec ∧
    r.f_coma ≤ (consumeG r vlen g).f_coma ∧
    (r.sign = true → (consumeG r vlen g).sign = true) := by
  unfold consumeG
  split <;>
    refine ⟨?_, ?_, ?_, ?_, ?_⟩ <;>
    simp only [] <;>
    first
    | (intro h; simp [h])
    | (split <;> omega)
    | omega

theorem consumeG_value_sci {r : FloatRepr} {vlen : Int} {g : FloatGroups}
    (h5 : ¬ g.g5.isEmpty = true) :
    vlen ≤ (consumeG r vlen g).e_width ∧
    (g.g2.length : Int) + g.g4.length ≤ (consumeG r vlen g).e_precision ∧
    ((consumeG r vlen g).type = FloatRepr.SCI ∨ (consumeG r vlen g).type = FloatRepr.MIXED) := by
  unfold consumeG
  rw [if_neg h5]
  refine ⟨?_, ?_, ?_⟩ <;> simp only []
  · split <;> omega
  · split <;> omega
  · split
    · right; rfl
    · left; rfl

theorem consumeG_value_dec {r : FloatRepr} {vlen : Int} {g : FloatGroups}
    (h5 : g.g5.isEmpty = true) :
    (g.g2.length : Int) ≤ (consumeG r vlen g).f_dec ∧
    (g.g4.length : Int) ≤ (consumeG r vlen g).f_coma ∧
    ((consumeG r vlen g).type = FloatRepr.DEC ∨ (consumeG r vlen g).type = FloatRepr.MIXED) := by
  unfold consumeG
  rw [if_pos h5]
  refine ⟨?_, ?_, ?_⟩ <;> simp only []
  · split <;> omega
  · split <;> omega
  · split
    · right; rfl
    · left; rfl

theorem consumeG_e_width_cases {r : FloatRepr} {vlen : Int} {g : FloatGroups} :
    (consumeG r vlen g).e_width = r.e_width ∨
    (¬ g.g5.isEmpty = true ∧ (consumeG r vlen g).e_width = vlen) := by
  unfold consumeG
  split
  · left; rfl
  · rename_i h5
    simp only []
    split
    · right; exact ⟨h5, rfl⟩
    · left; rfl

theorem consumeList_cons_ok {r0 r : FloatRepr} {v : String} {vs : List String}
    (h : FloatRepr.consumeList r0 (v :: vs) = .ok r) :
    ∃ g, regFloatMatch v.data = some g ∧
      FloatRepr.consumeList (consumeG r0 v.length g) vs = .ok r := by
  unfold FloatRepr.consumeList at h
  cases hc : r0.consume v with
  | error e => rw [hc] at h; exact absurd h (by simp)
  | ok r1 =>
    rw [hc] at h
    obtain ⟨g, hg, rfl⟩ := consume_eq_ok.mp hc
    exact ⟨g, hg, h⟩

theorem consumeList_mono {vs : List String} :
    ∀ {r0 r : FloatRepr}, FloatRepr.consumeList r0 vs = .ok r →
    r0.e_width ≤ r.e_width ∧ r0.e_precision ≤ r.e_precision ∧
    r0.f_dec ≤ r.f_dec ∧ r0.f_coma ≤ r.f_coma ∧
    (r0.sign = true → r.sign = true) := by
  induction vs with
  | nil =>
    intro r0 r h
    cases h
    exact ⟨le_refl _, le_refl _, le_refl _, le_refl _, fun h => h⟩
  | cons v vs ih =>
    intro r0 r h
    obtain ⟨g, hg, hrest⟩ := consumeList_cons_ok h
    obtain ⟨m1, m2, m3, m4, m5⟩ := @consumeG_mono r0 v.length g
    obtain ⟨n1, n2, n3, n4, n5⟩ := ih hrest
    exact ⟨le_trans m1 n1, le_trans m2 n2, le_trans m3 n3, le_trans m4 n4,
           fun h => n5 (m5 h)⟩

theorem consumeList_inv {vs : List String} :
    ∀ {r0 r : FloatRepr}, FloatRepr.consumeList r0 vs = .ok r → r0.Inv → r.Inv := by
  induction vs with
  | nil => intro r0 r h hi; cases h; exact hi
  | cons v vs ih =>
    intro r0 r h hi
    obtain ⟨g, hg, hrest⟩ := consumeList_cons_ok h
    obtain ⟨hg2, hs⟩ := regFloatMatch_nonempty hg
    have hvlen : 1 ≤ (v.length : Int) := by
      have := List.length_pos.mpr hs
      simp only [String.length]
      omega
    exact ih hrest (consumeG_inv hg2 hvlen hi)

theorem consumeList_value_bounds {vs : List String} :
    ∀ {r0 r : FloatRepr}, FloatRepr.consumeList r0 vs = .ok r →
    ∀ v ∈ vs,
      (isSciStr v = true → (v.length : Int) ≤ r.e_width ∧ valuePrec v ≤ r.e_precision) ∧
      (isSciStr v = false → valuePrec v ≤ r.f_dec + r.f_coma) := by
  induction vs with
  | nil => intro r0 r h v hv; cases hv
  | cons w vs ih =>
    intro r0 r h v hv
    obtain ⟨g, hg, hrest⟩ := consumeList_cons_ok h
    rcases List.mem_cons.mp hv with rfl | hv2
    · obtain ⟨n1, n2, n3, n4, _⟩ := consumeList_mono hrest
      constructor
      · intro hsci
        unfold isSciStr at hsci
        rw [hg] at hsci
        have h5 : ¬ g.g5.isEmpty = true := by simpa using hsci
        obtain ⟨b1, b2, _⟩ := @consumeG_value_sci r0 v.length g h5
        have hvp : valuePrec v = (g.g2.length : Int) + g.g4.length := by
          unfold valuePrec
          rw [hg]
        exact ⟨le_trans b1 n1, by rw [hvp]; exact le_trans b2 n2⟩
      · intro hdec
        unfold isSciStr at hdec
        rw [hg] at hdec
        have h5 : g.g5.isEmpty = true := by simpa using hdec
        obtain ⟨b1, b2, _⟩ := @consumeG_value_dec r0 v.length g h5
        have hvp : valuePrec v = (g.g2.length : Int) + g.g4.length := by
          unfold valuePrec
          rw [hg]
        rw [hvp]
        omega
    · exact ih hrest v hv2

theorem consumeList_e_width_attained {vs : List String} :
    ∀ {r0 r : FloatRepr}, FloatRepr.consumeList r0 vs = .ok r →
    r.e_width = r0.e_width ∨
    ∃ v ∈ vs, isSciStr v = true ∧ (v.length : Int) = r.e_width := by
  induction vs with
  | nil =>
    intro r0 r h
    cases h
    exact Or.inl rfl
  | cons v vs ih =>
    intro r0 r h
    obtain ⟨g, hg, hrest⟩ := consumeList_cons_ok h
    rcases ih hrest with heq | ⟨w, hw, hws, hwl⟩
    · rcases @consumeG_e_width_cases r0 v.length g with hsame | ⟨h5, hlen⟩
      · left; rw [heq, hsame]
      · right
        refine ⟨v, List.mem_cons_self v vs, ?_, ?_⟩
        · unfold isSciStr
          rw [hg]
          simpa using h5
        · rw [heq, hlen]
    · exact Or.inr ⟨w, List.mem_cons_of_mem v hw, hws, hwl⟩

/-- Decimal-notation width tracked by a `FloatRepr`:
`intDigits + fracDigits + 1` for the decimal point, plus 1 if a sign was seen. -/
def decWidth (r : FloatRepr) : Int :=
  r.f_dec + r.f_coma + 1 + (if r.sign then 1 else 0)

/-- Decimal-notation precision tracked by a `FloatRepr`: `intDigits + fracDigits`. -/
def decPrec (r : FloatRepr) : Int := r.f_dec + r.f_coma

/-- **C1.** For every float column whose textual renderings include both decimal-
and scientific-notation values (`FloatRepr` type MIXED), `width()` returns the
larger of the decimal-computed width (`intDigits + fracDigits + 1`, plus 1 if any
sign was seen) and the maximum scientific rendering width observed, and
`precision()` returns the larger of the decimal precision
(`intDigits + fracDigits`) and the maximum scientific significant-digit count; in
particular the inferred precision is at least the precision the regex assigns to
any value seen in either notation. -/
theorem C1_mixed_width_precision_merge (vs : List String) (r : FloatRepr)
    (h : FloatRepr.consumeList FloatRepr.init vs = .ok r)
    (hty : r.type = FloatRepr.MIXED) :
    r.width = max (decWidth r) r.e_width ∧
    r.precision = max (decPrec r) r.e_precision ∧
    (∀ v ∈ vs, isSciStr v = true → (v.length : Int) ≤ r.e_width) ∧
    (∃ v ∈ vs, isSciStr v = true ∧ (v.length : Int) = r.e_width) ∧
    (∀ v ∈ vs, valuePrec v ≤ r.precision) := by
  have hInv := consumeList_inv h FloatRepr.init_inv
  have hS : FloatRepr.MIXED ≠ FloatRepr.SCI := by decide
  have hD : FloatRepr.MIXED ≠ FloatRepr.DEC := by decide
  have hw : r.width = max (decWidth r) r.e_width := by
    simp only [FloatRepr.width, decWidth, hty, if_neg hS, if_neg hD]
    rw [max_def]
    split <;> split <;> split <;> omega
  have hp : r.precision = max (decPrec r) r.e_precision := by
    simp only [FloatRepr.precision, decPrec, hty, if_neg hS, if_neg hD]
    rw [max_def]
    split <;> split <;> omega
  have hb := consumeList_value_bounds h
  refine ⟨hw, hp, ?_, ?_, ?_⟩
  · intro v hv hs
    exact ((hb v hv).1 hs).1
  · rcases consumeList_e_width_attained h with heq | hex
    · exfalso
      have h1 : 1 ≤ r.e_width := (hInv.1 (Or.inr hty)).1
      simp only [FloatRepr.init] at heq
      omega
    · exact hex
  · intro v hv
    have hmax : r.e_precision ≤ r.precision ∧ decPrec r ≤ r.precision := by
      rw [hp]
      exact ⟨le_max_right _ _, le_max_left _ _⟩
    cases hs : isSciStr v with
    | true =>
      have := ((hb v hv).1 hs).2
      omega
    | false =>
      have := (hb v hv).2 hs
      unfold decPrec at hmax
      omega

def c1wr : FloatRepr :=
  { type := 2, sign := false, e_width := 6, e_precision := 3, f_coma := 1, f_dec := 1 }

/-- Witness for C1 at the concrete mixed-notation column `["1.1", "1.23e2"]`. -/
theorem C1_mixed_width_precision_merge_witness :
    FloatRepr.consumeList FloatRepr.init ["1.1", "1.23e2"] = .ok c1wr ∧
    c1wr.type = FloatRepr.MIXED ∧
    (c1wr.width = max (decWidth c1wr) c1wr.e_width ∧
     c1wr.precision = max (decPrec c1wr) c1wr.e_precision ∧
     (∀ v ∈ ["1.1", "1.23e2"], isSciStr v = true → (v.length : Int) ≤ c1wr.e_width) ∧
     (∃ v ∈ ["1.1", "1.23e2"], isSciStr v = true ∧ (v.length : Int) = c1wr.e_width) ∧
     (∀ v ∈ ["1.1", "1.23e2"], valuePrec v ≤ c1wr.precision)) :=
  ⟨rfl, rfl, C1_mixed_width_precision_merge ["1.1", "1.23e2"] c1wr rfl rfl⟩

def c5r : FloatRepr :=
  { type := 0, sign := false, e_width := 5, e_precision := 2, f_coma := -1, f_dec := -1 }

/-- **C5.** The claim states that for a `FloatRepr` that has consumed only
scientific-notation values (type SCI), `fortran_format()` returns
`E<width>.<precision>` and `c_format()` returns `<width>.<precision>e`.  The code
cannot do so: both SCI branches read `self.ePrecision`, an attribute that exists
nowhere in the class (the field is `e_precision`), so the calls raise
`AttributeError`.  Evaluated at the failing input: after consuming the single
scientific value "1.5e3" the accumulator has type SCI, width 5 and significant-digit
count 2 — the claimed returns would be "E5.2" and "5.2e" — yet both format methods
error out.  The surrounding branches (DEC, MIXED) use the correctly spelled fields,
so the spec describes the evident intent and the code has a typo. -/
theorem C5_sci_format_attribute_error :
    FloatRepr.consume FloatRepr.init "1.5e3" = .ok c5r ∧
    c5r.type = FloatRepr.SCI ∧ c5r.e_width = 5 ∧ c5r.e_precision = 2 ∧
    c5r.fortran_format =
      .error "AttributeError: FloatRepr object has no attribute ePrecision" ∧
    c5r.c_format =
      .error "AttributeError: FloatRepr object has no attribute ePrecision" :=
  ⟨rfl, rfl, rfl, rfl, rfl, rfl⟩

/-! ## Decimal digit strings and Python float values

A Python float is modelled by the decomposition of its `str()` rendering:
sign, integer-part digits, fraction digits, and the exponent when the
rendering is scientific.  Formatting (`%f`, `%g`, `%e`) is modelled
digit-wise on that decomposition: in CPython the low digits printed from the
underlying binary double can differ from a zero-extension of the shortest
repr, but the rendered *length* (all any claim here measures) is the same. -/

def zeros (n : Nat) : List Char := List.replicate n '0'

/-- First `n` digits of a digit stream, zero-extended. -/
def takePad (n : Nat) (l : List Char) : List Char := l.take n ++ zeros (n - l.length)

theorem takePad_length (n : Nat) (l : List Char) : (takePad n l).length = n := by
  simp [takePad, zeros]; omega

def stripTrail0 (l : List Char) : List Char := (l.reverse.dropWhile (fun c => c = '0')).reverse

theorem dropWhile_length_le (p : Char → Bool) (l : List Char) :
    (l.dropWhile p).length ≤ l.length := by
  induction l with
  | nil => simp
  | cons c cs ih =>
    rw [List.dropWhile_cons]
    split
    · exact le_trans ih (by simp)
    · simp

theorem stripTrail0_length_le (l : List Char) : (stripTrail0 l).length ≤ l.length := by
  simp only [stripTrail0, List.length_reverse]
  calc (l.reverse.dropWhile (fun c => c = '0')).length ≤ l.reverse.length :=
        dropWhile_length_le _ _
    _ = l.length := List.length_reverse l

/-- Decimal digit characters of a natural number, most significant first
(structural fuel recursion so that concrete values reduce by `rfl`). -/
def natDigitAux : Nat → Nat → List Char
  | 0, _ => []
  | fuel + 1, n =>
    if n < 10 then [Char.ofNat (48 + n)]
    else natDigitAux fuel (n / 10) ++ [Char.ofNat (48 + n % 10)]

def natDigitChars (n : Nat) : List Char := natDigitAux (n + 1) n

theorem natDigitAux_irrel : ∀ (f1 : Nat) {f2 n : Nat}, n < f1 → n < f2 →
    natDigitAux f1 n = natDigitAux f2 n := by
  intro f1
  induction f1 with
  | zero => intro f2 n h1 _; omega
  | succ f ih =>
    intro f2 n h1 h2
    cases f2 with
    | zero => omega
    | succ f2 =>
      simp only [natDigitAux]
      split
    
      · rfl
      · rename_i hn
        rw [@ih f2 (n / 10) (by omega) (by omega)]

theorem natDigitChars_eq (n : Nat) :
    natDigitChars n =
      if n < 10 then [Char.ofNat (48 + n)]
      else natDigitChars (n / 10) ++ [Char.ofNat (48 + n % 10)] := by
  unfold natDigitChars
  simp only [natDigitAux]
  split
  · rfl
  · rename_i hn
    rw [@natDigitAux_irrel n (n / 10 + 1) (n / 10) (by omega) (by omega)]
    rfl

theorem natDigitChars_length_pos (n : Nat) : 1 ≤ (natDigitChars n).length := by
  rw [natDigitChars_eq]
  split <;> simp

theorem natDigitChars_length_eq (n : Nat) :
    (natDigitChars n).length = Nat.log 10 n + 1 := by
  induction n using Nat.strong_induction_on with
  | _ n ih =>
    rw [natDigitChars_eq]
    split
    · rename_i h
      have : Nat.log 10 n = 0 := Nat.log_eq_zero_iff.mpr (Or.inl h)
      simp [this]
    · rename_i h
      push_neg at h
      have hd : n / 10 < n := Nat.div_lt_self (by omega) (by omega)
      have hlog : Nat.log 10 (n / 10) = Nat.log 10 n - 1 := Nat.log_div_base 10 n
      have hpos : 0 < Nat.log 10 n := Nat.log_pos (by omega) h
      rw [List.length_append, ih _ hd, hlog]
      simp
      omega

theorem natDigitChars_length_mono {m n : Nat} (h : m ≤ n) :
    (natDigitChars m).length ≤ (natDigitChars n).length := by
  rw [natDigitChars_length_eq, natDigitChars_length_eq]
  have := @Nat.log_mono_right 10 m n h
  omega

/-- `str(int)` at the character level. -/
def intStr (n : Int) : List Char :=
  (if n < 0 then ['-'] else []) ++ natDigitChars n.natAbs

/-- `len(str(x))` where `x` is an optional int (`str(None) = "None"`). -/
def strOptInt : Option Int → List Char
  | none => ['N', 'o', 'n', 'e']
  | some n => intStr n

/-- Exponent suffix of a Python float rendering: explicit sign and at least
two digits (`e+16`, `e-05`), without the letter `e`. -/
def expRender (k : Int) : List Char :=
  (if k < 0 then '-' else '+') ::
    (if (natDigitChars k.natAbs).length < 2 then '0' :: natDigitChars k.natAbs
     else natDigitChars k.natAbs)

/-- Decomposition of the `str()` rendering of a (non-NaN) Python float. -/
structure PyFloat where
  neg : Bool
  ip : List Char
  fp : List Char
  exp : Option Int
deriving DecidableEq, Repr

/-- The `str()` rendering itself. -/
def PyFloat.render (v : PyFloat) : List Char :=
  (if v.neg then ['-'] else []) ++ v.ip ++
  (if v.fp = [] then [] else '.' :: v.fp) ++
  (match v.exp with | none => [] | some k => 'e' :: expRender k)

/-- Power-of-ten exponent of the leading significant digit. -/
def PyFloat.exp10 (v : PyFloat) : Int :=
  match v.exp with
  | some k => k
  | none =>
    if v.ip = ['0'] then -((v.fp.takeWhile (fun c => c = '0')).length : Int) - 1
    else (v.ip.length : Int) - 1

/-- Integer-part digit string of the value (used by fixed-point rendering). -/
def PyFloat.intDigits (v : PyFloat) : List Char :=
  match v.exp with
  | none => v.ip
  | some k => if 0 ≤ k then v.ip ++ v.fp ++ zeros (k.toNat - v.fp.length) else ['0']

/-- Fraction digit stream of the value. -/
def PyFloat.fracDigits (v : PyFloat) : List Char :=
  match v.exp with
  | none => v.fp
  | some k => if 0 ≤ k then [] else zeros ((-k).toNat - 1) ++ v.ip ++ v.fp

/-- Significant digits, leading zeros removed. -/
def PyFloat.sigDigits (v : PyFloat) : List Char :=
  (v.ip ++ v.fp).dropWhile (fun c => c = '0')

def PyFloat.isZeroMant (v : PyFloat) : Bool := (v.ip ++ v.fp).all (fun c => c = '0')

/-- Python `"%.Cf"` rendering at the digit level (no field-width padding).
With `C` at least the stored fraction length no rounding occurs; otherwise
the digits are truncated where CPython would round, which never changes the
length (`str(v)` showing the integer digits it does show guarantees the
rounded value cannot gain an integer digit). -/
def PyFloat.fixedRender (v : PyFloat) (C : Nat) : List Char :=
  (if v.neg then ['-'] else []) ++ v.intDigits ++
  (if C = 0 then [] else '.' :: takePad C v.fracDigits)

/-- Python `"%.Ng"` rendering, without sign: fixed-point with
`N - 1 - exp10` fraction digits when `-4 ≤ exp10 < N` (trailing zeros and a
bare dot stripped), scientific with `N - 1` fraction digits otherwise. -/
def PyFloat.gBody (v : PyFloat) (N : Nat) : List Char :=
  if v.isZeroMant then ['0']
  else if -4 ≤ v.exp10 ∧ v.exp10 < (N : Int) then
    v.intDigits ++
      (if stripTrail0 (takePad ((N - 1 - v.exp10).toNat) v.fracDigits) = [] then []
       else '.' :: stripTrail0 (takePad ((N - 1 - v.exp10).toNat) v.fracDigits))
  else
    match v.sigDigits with
    | [] => ['0']
    | d :: rest =>
      [d] ++
        (if stripTrail0 (takePad (N - 1) rest) = [] then []
         else '.' :: stripTrail0 (takePad (N - 1) rest)) ++
        'e' :: expRender v.exp10

def PyFloat.gRender (v : PyFloat) (N : Nat) : List Char :=
  (if v.neg then ['-'] else []) ++ v.gBody N

/-- Python `"%.Pe"` rendering (only reachable through a forced `E` format). -/
def PyFloat.eRender (v : PyFloat) (P : Nat) : List Char :=
  (if v.neg then ['-'] else []) ++
  (match v.sigDigits with
   | [] => '0' :: (if P = 0 then [] else '.' :: zeros P) ++ ['e', '+', '0', '0']
   | d :: rest =>
     [d] ++ (if P = 0 then [] else '.' :: takePad P rest) ++ 'e' :: expRender v.exp10)

def digitsVal (l : List Char) : Nat := l.foldl (fun a c => a * 10 + (c.toNat - 48)) 0

def pow10 : Nat → Int
  | 0 => 1
  | n + 1 => 10 * pow10 n

/-- Exact value of the rendering as a scaled integer: the value is
`scaledNum * 10 ^ scaledExp`. -/
def PyFloat.scaledNum (v : PyFloat) : Int :=
  (if v.neg then -1 else 1) * (digitsVal (v.ip ++ v.fp) : Int)

def PyFloat.scaledExp (v : PyFloat) : Int :=
  (match v.exp with | none => 0 | some k => k) - v.fp.length

/-- Exact `<` on float values (cross-scaled integer comparison). -/
def floatLt (a b : PyFloat) : Bool :=
  a.scaledNum * pow10 (a.scaledExp - min a.scaledExp b.scaledExp).toNat <
    b.scaledNum * pow10 (b.scaledExp - min a.scaledExp b.scaledExp).toNat

/-- Exact `==` on float values. -/
def floatEqVal (a b : PyFloat) : Bool :=
  a.scaledNum * pow10 (a.scaledExp - min a.scaledExp b.scaledExp).toNat =
    b.scaledNum * pow10 (b.scaledExp - min a.scaledExp b.scaledExp).toNat

/-- Well-formedness of a float value record as the decomposition of an actual
CPython `str()` rendering:
* digits only, non-empty integer part, no leading zero unless the part is `0`;
* decimal renderings keep a non-empty fraction (`3.0`) and are only produced
  for exponents at least −4 (smaller values render scientific);
* scientific renderings have a single mantissa digit, exponent at least 16 or
  at most −5, and (for a double of magnitude at least 1e16, an integer) no
  fraction digits beyond the exponent. -/
def PyFloat.WF (v : PyFloat) : Prop :=
  v.ip ≠ [] ∧ v.ip.all isDigitC = true ∧ v.fp.all isDigitC = true ∧
  (v.ip.length > 1 → v.ip.head? ≠ some '0') ∧
  (match v.exp with
   | none => v.fp ≠ [] ∧ (-4 : Int) ≤ v.exp10
   | some k => v.ip.length = 1 ∧ v.ip ≠ ['0'] ∧ ((16 : Int) ≤ k ∨ k ≤ (-5 : Int)) ∧
       (0 ≤ k → (v.fp.length : Int) ≤ k))

/-! ## Cells, dtypes and formatters -/

/-- One stored value of an astropy column: the numpy masked constant, Python
`None`, float NaN, an integer, a float, or a string. -/
inductive Cell where
  | masked : Cell
  | noneV : Cell
  | nanV : Cell
  | intV : Int → Cell
  | floatV : PyFloat → Cell
  | strV : List Char → Cell
deriving DecidableEq, Repr

/-- The storage dtype of the column (`column.dtype.name` prefix: `i`/`u`
integers, `f` floats, `s` strings with the declared character size parsed
from `dtype.str`, anything else — e.g. object columns — is `obj`). -/
inductive DType where
  | i : DType
  | u : DType
  | f : DType
  | s : Option Nat → DType
  | obj : DType
deriving DecidableEq, Repr

/-- A numeric bound (integer columns carry ints, float columns carry the
float value, represented by its rendering). -/
inductive NumV where
  | iv : Int → NumV
  | rv : PyFloat → NumV
deriving DecidableEq, Repr

/-- Which Python formatter class the `write` method comes from. -/
inductive FKind where
  | intK | floatK | strK | forcedK
deriving DecidableEq, Repr

/-- Structured form of the `out_format` string the formatters build
(`"{0:>N}"`, `"{0:Ns}"`, `"{0:W.Cf}"`, `"{0:W.Pe}"`, `"{0:W.Ng}"`). -/
inductive OutFmt where
  | oInt : Nat → OutFmt
  | oStr : Nat → OutFmt
  | oF : Nat → Nat → OutFmt
  | oE : Nat → Int → OutFmt
  | oG : Nat → Nat → OutFmt
deriving DecidableEq, Repr

/-- Applying the `out_format` to a non-null cell.  Combinations that raise
`TypeError` in Python (e.g. formatting a string with a float spec) are
rendered as `[]`; they are unreachable for well-typed columns. -/
def OutFmt.render : OutFmt → Cell → List Char
  | .oInt w, .intV n => padLeft w (intStr n)
  | .oInt w, .strV s => padLeft w s
  | .oInt w, .nanV => padLeft w ['n', 'a', 'n']
  | .oStr w, .strV s => padRight w s
  | .oF w C, .floatV v => padLeft w (v.fixedRender C)
  | .oF w C, .intV n => padLeft w (intStr n ++ (if C = 0 then [] else '.' :: zeros C))
  | .oG w N, .floatV v => padLeft w (v.gRender N)
  | .oG w N, .intV n => padLeft w ((PyFloat.mk (n < 0) (natDigitChars n.natAbs) [] none).gRender N)
  | .oE w P, .floatV v => padLeft w (v.eRender P.toNat)
  | _, _ => []

/-- The CDS formatter state: class tag, `fortran_format`, `size`, structured
`out_format`, and the slot bounds. -/
structure Fmtr where
  kind : FKind
  ffmt : String
  size : Nat
  ofmt : OutFmt
  min : Option NumV
  max : Option NumV
deriving DecidableEq, Repr

/-- `write(value)`: `CDSColumnFormatter.write` blanks the masked constant;
`CDSColumnFloatFormatter.write` additionally blanks NaN.  The `none_format`
of every formatter renders the empty string over the field width, i.e.
`size` blanks. -/
def Fmtr.write (f : Fmtr) (c : Cell) : List Char :=
  match f.kind with
  | .floatK =>
    match c with
    | .masked => blanks f.size
    | .nanV => blanks f.size
    | c => f.ofmt.render c
  | _ =>
    match c with
    | .masked => blanks f.size
    | c => f.ofmt.render c

def maxListO : List Int → Option Int
  | [] => none
  | x :: xs => some (xs.foldl max x)

def minListO : List Int → Option Int
  | [] => none
  | x :: xs => some (xs.foldl min x)

/-- View an integer column's cells as optional ints (`none` = masked). -/
def cellInt : Cell → Option (Option Int)
  | .masked => some none
  | .intV n => some (some n)
  | _ => none

/-- Effectful map over cells (explicit recursion for easy reasoning). -/
def mapO {α : Type} (f : Cell → Option α) : List Cell → Option (List α)
  | [] => some []
  | c :: cs =>
    match f c, mapO f cs with
    | some x, some xs => some (x :: xs)
    | _, _ => none

def cellsInt (cells : List Cell) : Option (List (Option Int)) := mapO cellInt cells

/-- `CDSColumnIntegerFormatter.__set_slot`: with `has_null`, masked slots are
filled with ∓999999 sentinels and an extremum equal to its pessimistic
sentinel is discarded as "all null"; without, plain min/max.  `none` models
the `ValueError` Python's `max()` raises on an empty column. -/
def intSlot (vals : List (Option Int)) (hasNull : Bool) :
    Option (Option Int × Option Int) :=
  if hasNull then
    match maxListO (vals.map (fun o => o.getD (-999999))),
          minListO (vals.map (fun o => o.getD 999999)) with
    | some mx, some mn =>
      some ((if mn = 999999 then none else some mn),
            (if mx = -999999 then none else some mx))
    | _, _ => none
  else
    match maxListO (vals.filterMap id), minListO (vals.filterMap id) with
    | some mx, some mn => some (some mn, some mx)
    | _, _ => none

/-- `CDSColumnIntegerFormatter`: width from the longer of `str(min)` and
`str(max)` (`str(None)` when a bound was discarded). -/
def intFormatter (vals : List (Option Int)) (hasNull : Bool) : Option Fmtr :=
  match intSlot vals hasNull with
  | none => none
  | some (mn, mx) =>
    some
      { kind := .intK,
        ffmt := "I" ++ toString (max (strOptInt mx).length (strOptInt mn).length),
        size := max (strOptInt mx).length (strOptInt mn).length,
        ofmt := .oInt (max (strOptInt mx).length (strOptInt mn).length),
        min := mn.map .iv, max := mx.map .iv }

/-- View a string column's cells as optional strings (`none` = masked). -/
def cellStr : Cell → Option (Option (List Char))
  | .masked => some none
  | .strV s => some (some s)
  | _ => none

def cellsStr (cells : List Cell) : Option (List (Option (List Char))) := mapO cellStr cells

/-- `CDSColumnStringFormatter`: with `has_null` masked slots are filled with
`""` and the width is the recomputed numpy itemsize, i.e. the maximum stored
length; otherwise the width declared by `dtype.str`, falling back to the
default 50 when it cannot be parsed. -/
def strFormatter (vals : List (Option (List Char))) (dsize : Option Nat)
    (hasNull : Bool) : Fmtr :=
  { kind := .strK,
    ffmt := "A" ++ toString (if hasNull then (vals.map (fun o => (o.getD []).length)).foldl max 0
                             else dsize.getD 50),
    size := if hasNull then (vals.map (fun o => (o.getD []).length)).foldl max 0
            else dsize.getD 50,
    ofmt := .oStr (if hasNull then (vals.map (fun o => (o.getD []).length)).foldl max 0
                   else dsize.getD 50),
    min := none, max := none }

/-- `str(rec)` for the cells the float-formatter parse loop does not skip
(`str()` of the numpy masked constant is `"--"`, of NaN is `"nan"`); `None`
cells are skipped (`none`). -/
def cellFloatStr : Cell → Option String
  | .masked => some "--"
  | .nanV => some "nan"
  | .floatV v => some (String.mk v.render)
  | .intV n => some (String.mk (intStr n))
  | .strV s => some (String.mk s)
  | .noneV => none

/-- The textual values `CDSColumnFloatFormatter.__parse` feeds to `consume`. -/
def floatVals (cells : List Cell) : List String := cells.filterMap cellFloatStr

/-- The float sentinel fill values `±999999` (`-999999.0` as a float). -/
def sentF (neg : Bool) : PyFloat := ⟨neg, ['9', '9', '9', '9', '9', '9'], ['0'], none⟩

/-- Value of a cell for the float slot computation.  NaN entries are
dropped: Python's builtin `max`/`min` over NaN is order-dependent (IEEE
comparisons), and no claim depends on the bounds of a NaN-carrying column. -/
def cellFloatVal (sentinel : PyFloat) : Cell → Option PyFloat
  | .masked => some sentinel
  | .floatV v => some v
  | .intV n => some ⟨n < 0, natDigitChars n.natAbs, ['0'], none⟩
  | _ => none

def maxFloatO : List PyFloat → Option PyFloat
  | [] => none
  | x :: xs => some (xs.foldl (fun a b => if floatLt a b then b else a) x)

def minFloatO : List PyFloat → Option PyFloat
  | [] => none
  | x :: xs => some (xs.foldl (fun a b => if floatLt b a then b else a) x)

/-- `CDSColumnFloatFormatter.__set_slot` — same sentinel-fill trick as the
integer formatter, on float values. -/
def floatSlot (cells : List Cell) (hasNull : Bool) :
    Option (Option PyFloat × Option PyFloat) :=
  if hasNull then
    match maxFloatO (cells.filterMap (cellFloatVal (sentF true))),
          minFloatO (cells.filterMap (cellFloatVal (sentF false))) with
    | some mx, some mn =>
      some ((if floatEqVal mn (sentF false) then none else some mn),
            (if floatEqVal mx (sentF true) then none else some mx))
    | _, _ => none
  else
    match maxFloatO (cells.filterMap (cellFloatVal (sentF false))),
          minFloatO (cells.filterMap (cellFloatVal (sentF false))) with
    | some mx, some mn => some (some mn, some mx)
    | _, _ => none

/-- Structured reading of the `c_format` string the float formatter stores as
its `out_format` (`%W.Cf` for DEC, `%W.Ng` with `N = precision()+1` for
MIXED); the SCI branch raises `AttributeError` (non-existent `ePrecision`). -/
def FloatRepr.ofmtOf (r : FloatRepr) : Except String OutFmt :=
  if r.type = FloatRepr.SCI then
    .error "AttributeError: FloatRepr object has no attribute ePrecision"
  else if r.type = FloatRepr.MIXED then
    .ok (.oG r.width.toNat (r.precision + 1).toNat)
  else
    .ok (.oF r.width.toNat r.f_coma.toNat)

/-- `CDSColumnFloatFormatter.__init__`: slot bounds, then accumulate a
`FloatRepr` over the textual renderings and take width and formats from it. -/
def floatFormatterFmt (r : FloatRepr) (slot : Option PyFloat × Option PyFloat) :
    Except String Fmtr :=
  match r.fortran_format with
  | .error e => .error e
  | .ok ff =>
    match r.ofmtOf with
    | .error e => .error e
    | .ok ofmt =>
      Except.ok
        { kind := .floatK, ffmt := ff, size := r.width.toNat, ofmt := ofmt,
          min := slot.1.map .rv, max := slot.2.map .rv }

def floatFormatterRepr (cells : List Cell) (slot : Option PyFloat × Option PyFloat) :
    Except String Fmtr :=
  match FloatRepr.consumeList FloatRepr.init (floatVals cells) with
  | .error e => .error e
  | .ok r => floatFormatterFmt r slot

def floatFormatter (cells : List Cell) (hasNull : Bool) : Except String Fmtr :=
  match floatSlot cells hasNull with
  | none => Except.error "ValueError: max of an empty column"
  | some slot => floatFormatterRepr cells slot

/-! ## `CDSColumn.set_format` (lines 370–407) -/

/-- `^([EF])([0-9]+)[.]([0-9]+)` (a prefix match: trailing text is ignored). -/
def matchEF (s : String) : Option (Char × Nat × Nat) :=
  match s.data with
  | [] => none
  | c :: rest =>
    if c = 'E' ∨ c = 'F' then
      match rest.takeWhile isDigitC with
      | [] => none
      | ds =>
        match rest.drop ds.length with
        | '.' :: rest2 =>
          match rest2.takeWhile isDigitC with
          | [] => none
          | ps => some (c, digitsVal ds, digitsVal ps)
        | _ => none
    else none

/-- `^([IA])([0-9]+)` (prefix match). -/
def matchIA (s : String) : Option (Char × Nat) :=
  match s.data with
  | [] => none
  | c :: rest =>
    if c = 'I' ∨ c = 'A' then
      match rest.takeWhile isDigitC with
      | [] => none
      | ds => some (c, digitsVal ds)
    else none

/-- `CDSColumn.set_format`: parse a forced fortran format into a carrier
formatter (its `min`/`max` stay `None`).  The `E` path stores
`"{0:W.(P-1)e}"`. -/
def parseForceFmt (fmt : String) : Except String Fmtr :=
  match matchEF fmt with
  | some (c, w, p) =>
    if c = 'E' then
      .ok { kind := .forcedK, ffmt := fmt, size := w, ofmt := .oE w ((p : Int) - 1),
            min := none, max := none }
    else
      .ok { kind := .forcedK, ffmt := fmt, size := w, ofmt := .oF w p,
            min := none, max := none }
  | none =>
    match matchIA fmt with
    | some (c, w) =>
      if c = 'I' then
        .ok { kind := .forcedK, ffmt := fmt, size := w, ofmt := .oInt w,
              min := none, max := none }
      else
        .ok { kind := .forcedK, ffmt := fmt, size := w, ofmt := .oStr w,
              min := none, max := none }
    | none => .error ("format " ++ fmt ++ " not accepted")

/-! ## `CDSColumn` (lines 346–466)

Unit and description resolution (lines 429–439) is omitted: no claim touches
it.  The descriptor state relevant to the claims is the cell list, whether
the storage is a `MaskedColumn`, the dtype, the optional forced format, and
the fields `parse` fills in. -/

inductive ColType where
  | intT | floatT | strT
deriving DecidableEq, Repr

structure CDSCol where
  cells : List Cell
  isMaskedCol : Bool
  dtype : DType
  forceFormat : Option Fmtr
  formatter : Option Fmtr
  size : Option Nat
  hasNull : Option Bool
  min : Option NumV
  max : Option NumV
deriving DecidableEq, Repr

/-- A fresh descriptor over an astropy column. -/
def CDSCol.mk0 (cells : List Cell) (isMaskedCol : Bool) (dtype : DType) : CDSCol :=
  { cells := cells, isMaskedCol := isMaskedCol, dtype := dtype,
    forceFormat := none, formatter := none, size := none,
    hasNull := none, min := none, max := none }

/-- `CDSColumn.__get_type`: dtype-name prefix, falling back to the runtime
type of the first non-null, non-masked value (`numpy.isreal` is true for NaN
and floats), defaulting to string. -/
def CDSCol.getType (col : CDSCol) : ColType :=
  match col.dtype with
  | .i => .intT
  | .u => .intT
  | .f => .floatT
  | .s _ => .strT
  | .obj =>
    match col.cells.find? (fun c => c ≠ .noneV ∧ c ≠ .masked) with
    | some (.intV _) => .intT
    | some (.floatV _) => .floatT
    | some .nanV => .floatT
    | _ => .strT

/-- `CDSColumn.set_format`. -/
def CDSCol.set_format (col : CDSCol) (fmt : String) : Except String CDSCol :=
  match parseForceFmt fmt with
  | .error e => .error e
  | .ok f => .ok { col with forceFormat := some f }

/-- `CDSColumn.set_null_value`: re-mask the storage — already-masked entries
stay masked, entries comparing equal to the null value become masked.  NaN
compares unequal to everything (including itself), so a NaN null value masks
nothing. -/
def CDSCol.set_null_value (col : CDSCol) (nullValue : Cell) : CDSCol :=
  { col with
    cells := col.cells.map
      (fun v => if v = .masked ∨ (v = nullValue ∧ v ≠ .nanV) then .masked else v),
    isMaskedCol := true }

/-- The declared character size of a string dtype. -/
def CDSCol.dsize (col : CDSCol) : Option Nat :=
  match col.dtype with
  | .s sz => sz
  | _ => none

/-- `parse`, step 1: a plain column containing `None` is re-wrapped as a
`MaskedColumn` masking exactly the `None` entries (lines 441–446). -/
def CDSCol.convertNone (col : CDSCol) : CDSCol :=
  if ¬ col.isMaskedCol ∧ col.cells.contains .noneV then
    { col with
      cells := col.cells.map (fun c => if c = .noneV then .masked else c),
      isMaskedCol := true }
  else col

/-- `parse`, step 2: build the formatter matching the column type
(lines 449–455); `hasNull` is `isinstance(column, MaskedColumn)`. -/
def CDSCol.buildFormatter (col : CDSCol) : Except String Fmtr :=
  match col.getType with
  | .intT =>
    match cellsInt col.cells with
    | none => Except.error "TypeError: non-integer value in an integer column"
    | some vals =>
      match intFormatter vals col.isMaskedCol with
      | none => Except.error "ValueError: max of an empty column"
      | some f => Except.ok f
  | .floatT => floatFormatter col.cells col.isMaskedCol
  | .strT =>
    match cellsStr col.cells with
    | none => Except.error "TypeError: non-string value in a string column"
    | some vals => Except.ok (strFormatter vals col.dsize col.isMaskedCol)

/-- `parse`, step 3: record the formatter results on the descriptor; a forced
format then overwrites `size` and the formatter's size and format fields —
but not the bounds (lines 457–466). -/
def CDSCol.applyFormatter (col : CDSCol) (f : Fmtr) : CDSCol :=
  match col.forceFormat with
  | some ff =>
    { col with
      formatter := some { f with size := ff.size, ffmt := ff.ffmt, ofmt := ff.ofmt },
      size := some ff.size, hasNull := some col.isMaskedCol,
      min := f.min, max := f.max }
  | none =>
    { col with
      formatter := some f, size := some f.size, hasNull := some col.isMaskedCol,
      min := f.min, max := f.max }

/-- `CDSColumn.parse` (lines 423–466): memoized — a no-op once a formatter
has been assigned. -/
def CDSCol.parse (col : CDSCol) : Except String CDSCol :=
  if col.formatter.isSome then .ok col
  else
    match (col.convertNone).buildFormatter with
    | .error e => .error e
    | .ok f => .ok ((col.convertNone).applyFormatter f)

/-- `CDSColumn.value(nrec)`. -/
def CDSCol.value (col : CDSCol) (nrec : Nat) : List Char :=
  match col.formatter with
  | some f => f.write (col.cells.getD nrec .masked)
  | none => []

/-- Python truthiness of the `nullvalue` argument (`if self.nullvalue:`). -/
def truthyCell : Option Cell → Bool
  | none => false
  | some .noneV => false
  | some .masked => false
  | some .nanV => true
  | some (.intV n) => n ≠ 0
  | some (.floatV v) => !v.isZeroMant
  | some (.strV s) => s ≠ []

/-- `if self.nullvalue: col.set_null_value(self.nullvalue)` of
`CDSTable.makeCDSTable`. -/
def applyNullValue (c : CDSCol) (nullvalue : Option Cell) : CDSCol :=
  match nullvalue with
  | some nv => if truthyCell (some nv) then c.set_null_value nv else c
  | none => c

/-- `CDSTable.makeCDSTable` per column: `col.parse()` first, then the
table-level null value. -/
def makeCDSTableCol (col : CDSCol) (nullvalue : Option Cell) : Except String CDSCol :=
  match col.parse with
  | .error e => .error e
  | .ok c => .ok (applyNullValue c nullvalue)

/-! ## Structural lemmas about `parse` -/

theorem parse_memoized {c : CDSCol} (h : c.formatter.isSome = true) :
    c.parse = .ok c := by
  unfold CDSCol.parse
  rw [if_pos h]

theorem parse_ok_iff {col c : CDSCol} (hf : col.formatter = none) :
    col.parse = .ok c ↔
    ∃ f, (col.convertNone).buildFormatter = .ok f ∧
      c = (col.convertNone).applyFormatter f := by
  unfold CDSCol.parse
  rw [hf]
  simp only [Option.isSome_none, Bool.false_eq_true, if_false]
  cases hb : (col.convertNone).buildFormatter <;> simp [eq_comm]

theorem applyFormatter_fields (col : CDSCol) (f : Fmtr) :
    (col.applyFormatter f).hasNull = some col.isMaskedCol ∧
    (col.applyFormatter f).isMaskedCol = col.isMaskedCol ∧
    (col.applyFormatter f).cells = col.cells ∧
    (col.applyFormatter f).formatter.isSome = true := by
  unfold CDSCol.applyFormatter
  cases col.forceFormat <;> exact ⟨rfl, rfl, rfl, rfl⟩

theorem convertNone_masked {col : CDSCol}
    (h : col.cells.contains .noneV = true ∨ col.isMaskedCol = true) :
    (col.convertNone).isMaskedCol = true := by
  unfold CDSCol.convertNone
  split
  · rfl
  · rename_i hc
    rcases h with h | h
    · by_contra hm
      exact hc ⟨by simpa using hm, h⟩
    · exact h

theorem set_null_value_fields (col : CDSCol) (v : Cell) :
    (col.set_null_value v).isMaskedCol = true ∧
    (col.set_null_value v).hasNull = col.hasNull ∧
    (col.set_null_value v).formatter = col.formatter ∧
    (col.set_null_value v).size = col.size ∧
    (col.set_null_value v).min = col.min ∧
    (col.set_null_value v).max = col.max :=
  ⟨rfl, rfl, rfl, rfl, rfl, rfl⟩

/-! ## Claim C3 -/

/-- The scenario column: integer storage `[1, 2, null, 4, 999]` (the null is
a masked entry of the integer `MaskedColumn`). -/
def c3col : CDSCol :=
  CDSCol.mk0 [.intV 1, .intV 2, .masked, .intV 4, .intV 999] true .i

/-- **C3.** For an integer column with values `[1, 2, null, 4, 999]`, after
`set_null_value(999)` followed by `parse()`: `hasNull == True`, `min == 1`,
`max == 4` (the sentinel value 999 and the true null are both excluded from
the bounds), and `size == 1` (single digit). -/
theorem C3_int_sentinel_bounds :
    ((c3col.set_null_value (.intV 999)).parse).map
        (fun c => (c.hasNull, c.min, c.max, c.size)) =
      .ok (some true, some (.iv 1), some (.iv 4), some 1) := by rfl

/-! ## Claim C9 -/

/-- A float column `[1.0, NaN]` (plain, not masked). -/
def c9colA : CDSCol :=
  CDSCol.mk0 [.floatV ⟨false, ['1'], ['0'], none⟩, .nanV] false .f

/-- **C9 counterexample.** The claim says a column containing a NaN value is
promoted to nullable (`hasNull == True`) by `parse()`.  It is not: `parse`
re-wraps only columns containing `None` into a `MaskedColumn`, and `__has_null`
is just `isinstance(column, MaskedColumn)`, so the float column `[1.0, NaN]`
parses with `hasNull == False`. -/
theorem C9_nan_not_promoted_counterexample :
    (c9colA.parse).map (fun c => c.hasNull) = .ok (some false) := by rfl

/-- **C9 (amended).** For every fresh column in which at least one value is
`None`, or to which an explicit null sentinel was applied (which re-wraps the
storage as a `MaskedColumn`), the descriptor's `hasNull` is `True` after
`parse()`, and the promotion is permanent: re-parsing is memoized and
returns the descriptor unchanged, and further `set_null_value` calls keep it
nullable.  (NaN values alone do *not* promote the column, although the float
writer still serializes NaN as blanks.) -/
theorem C9_none_or_sentinel_promotes_permanently (col c : CDSCol)
    (hf : col.formatter = none)
    (h : col.parse = .ok c)
    (hn : col.cells.contains .noneV = true ∨ col.isMaskedCol = true) :
    c.hasNull = some true ∧
    c.parse = .ok c ∧
    ∀ v, (c.set_null_value v).hasNull = some true ∧
         (c.set_null_value v).parse = .ok (c.set_null_value v) := by
  obtain ⟨f, hb, rfl⟩ := (parse_ok_iff hf).mp h
  obtain ⟨h1, h2, h3, h4⟩ := applyFormatter_fields col.convertNone f
  have hm : (col.convertNone).isMaskedCol = true := convertNone_masked hn
  refine ⟨by rw [h1, hm], parse_memoized h4, fun v => ⟨?_, ?_⟩⟩
  · rw [(set_null_value_fields _ v).2.1, h1, hm]
  · exact parse_memoized (by rw [(set_null_value_fields _ v).2.2.1]; exact h4)

/-- Witness column for C9: an object column `[5, None]`. -/
def c9colW : CDSCol := CDSCol.mk0 [.intV 5, .noneV] false .obj

/-- Witness for the amended C9 at the concrete column `[5, None]`. -/
theorem C9_none_or_sentinel_promotes_permanently_witness :
    c9colW.formatter = none ∧ c9colW.cells.contains .noneV = true ∧
    ∃ c, c9colW.parse = .ok c ∧
      (c.hasNull = some true ∧ c.parse = .ok c ∧
       ∀ v, (c.set_null_value v).hasNull = some true ∧
            (c.set_null_value v).parse = .ok (c.set_null_value v)) := by
  refine ⟨rfl, rfl, ?_⟩
  obtain ⟨c, hc⟩ : ∃ c, c9colW.parse = .ok c := ⟨_, rfl⟩
  exact ⟨c, hc, C9_none_or_sentinel_promotes_permanently c9colW c rfl hc (Or.inl rfl)⟩

/-! ## Claim C10 -/

/-- **C10.** `CDSTable.makeCDSTable` invokes `col.parse()` before
`col.set_null_value(nullvalue)` for every column, so a table-level null value
never affects the inferred `size`, `format` (formatter), `min` or `max` — they
equal the values computed by `parse` on the unmasked column — and only the
cell list (what row serialization reads) sees the resulting mask. -/
theorem C10_table_nullvalue_after_parse (col : CDSCol) (nv : Option Cell) (c2 : CDSCol)
    (h : makeCDSTableCol col nv = .ok c2) :
    ∃ c1, col.parse = .ok c1 ∧
      c2.size = c1.size ∧ c2.min = c1.min ∧ c2.max = c1.max ∧
      c2.formatter = c1.formatter ∧ c2.hasNull = c1.hasNull ∧
      (c2.cells = c1.cells ∨
        ∃ nvv, nv = some nvv ∧ truthyCell (some nvv) = true ∧
          c2.cells = c1.cells.map
            (fun v => if v = .masked ∨ (v = nvv ∧ v ≠ .nanV) then .masked else v)) := by
  unfold makeCDSTableCol at h
  cases hp : col.parse with
  | error e => rw [hp] at h; exact absurd h (by simp)
  | ok c1 =>
    rw [hp] at h
    have h2 : applyNullValue c1 nv = c2 := by injection h
    subst h2
    refine ⟨c1, rfl, ?_⟩
    cases nv with
    | none => exact ⟨rfl, rfl, rfl, rfl, rfl, Or.inl rfl⟩
    | some nvv =>
      simp only [applyNullValue]
      by_cases ht : truthyCell (some nvv) = true
      · rw [if_pos ht]
        obtain ⟨_, e2, e3, e4, e5, e6⟩ := set_null_value_fields c1 nvv
        exact ⟨e4, e5, e6, e3, e2, Or.inr ⟨nvv, rfl, ht, rfl⟩⟩
      · rw [if_neg ht]
        exact ⟨rfl, rfl, rfl, rfl, rfl, Or.inl rfl⟩

/-- Witness column for C10: integer `[1, 999]` with table-level
`nullvalue = 999`. -/
def c10col : CDSCol := CDSCol.mk0 [.intV 1, .intV 999] false .i

/-- Witness for C10 at the concrete column `[1, 999]`, nullvalue 999. -/
theorem C10_table_nullvalue_after_parse_witness :
    ∃ c2, makeCDSTableCol c10col (some (.intV 999)) = .ok c2 ∧
      ∃ c1, c10col.parse = .ok c1 ∧
        c2.size = c1.size ∧ c2.min = c1.min ∧ c2.max = c1.max ∧
        c2.formatter = c1.formatter ∧ c2.hasNull = c1.hasNull ∧
        (c2.cells = c1.cells ∨
          ∃ nvv, some (Cell.intV 999) = some nvv ∧ truthyCell (some nvv) = true ∧
            c2.cells = c1.cells.map
              (fun v => if v = .masked ∨ (v = nvv ∧ v ≠ .nanV) then .masked else v)) := by
  obtain ⟨c2, hc2⟩ : ∃ c2, makeCDSTableCol c10col (some (.intV 999)) = .ok c2 := ⟨_, rfl⟩
  exact ⟨c2, hc2, C10_table_nullvalue_after_parse c10col (some (.intV 999)) c2 hc2⟩

/-! ## Claim C4 -/

/-- Number of characters after the last decimal point of a rendered field. -/
def fracCount (l : List Char) : Nat :=
  if l.contains '.' then (l.reverse.takeWhile (fun c => c ≠ '.')).length else 0

theorem takeWhile_append_all (p : Char → Bool) (a b : List Char)
    (h : ∀ c ∈ a, p c = true) :
    (a ++ b).takeWhile p = a ++ b.takeWhile p := by
  induction a with
  | nil => simp
  | cons x xs ih =>
    simp only [List.cons_append]
    rw [List.takeWhile_cons_of_pos (h x (by simp))]
    rw [ih (fun c hc => h c (by simp [hc]))]

theorem fracCount_append_dot (a b : List Char) (hb : ∀ c ∈ b, c ≠ '.') :
    fracCount (a ++ '.' :: b) = b.length := by
  have hc : (a ++ '.' :: b).contains '.' = true := by
    simp [List.contains_eq_any_beq]
  rw [fracCount, if_pos hc]
  have hrev : (a ++ '.' :: b).reverse = b.reverse ++ '.' :: a.reverse := by
    simp
  rw [hrev, takeWhile_append_all _ _ _ (fun c hcm => by
    simpa using hb c (List.mem_reverse.mp hcm))]
  rw [List.takeWhile_cons_of_neg (by simp)]
  simp

theorem mem_takePad {n : Nat} {l : List Char} {c : Char} (h : c ∈ takePad n l) :
    c ∈ l ∨ c = '0' := by
  simp only [takePad, zeros, List.mem_append] at h
  rcases h with h | h
  · exact Or.inl (List.mem_of_mem_take h)
  · exact Or.inr (List.eq_of_mem_replicate h)

theorem fracDigits_digits {v : PyFloat} (hip : v.ip.all isDigitC = true)
    (hfp : v.fp.all isDigitC = true) :
    ∀ c ∈ v.fracDigits, isDigitC c = true := by
  obtain ⟨neg, ip, fp, exp⟩ := v
  intro c hc
  cases exp with
  | none =>
    simp only [PyFloat.fracDigits] at hc
    exact List.all_eq_true.mp hfp c hc
  | some k =>
    simp only [PyFloat.fracDigits] at hc
    split at hc
    · cases hc
    · simp only [zeros, List.mem_append] at hc
      rcases hc with (hc | hc) | hc
      · rw [List.eq_of_mem_replicate hc]; rfl
      · exact List.all_eq_true.mp hip c hc
      · exact List.all_eq_true.mp hfp c hc

/-- The forced formatter `set_format("F10.5")` builds. -/
def c4ff : Fmtr :=
  { kind := .forcedK, ffmt := "F10.5", size := 10, ofmt := .oF 10 5,
    min := none, max := none }

theorem convertNone_force (col : CDSCol) (ff : Fmtr) :
    CDSCol.convertNone { col with forceFormat := some ff }
      = { col.convertNone with forceFormat := some ff } := by
  obtain ⟨cells, im, dt, ffm, fm, sz, hn, mn, mx⟩ := col
  simp only [CDSCol.convertNone]
  split <;> rfl

theorem buildFormatter_force (col : CDSCol) (ff : Fmtr) :
    CDSCol.buildFormatter { col with forceFormat := some ff } = col.buildFormatter := by
  obtain ⟨cells, im, dt, ffm, fm, sz, hn, mn, mx⟩ := col
  rfl

theorem applyFormatter_minmax (col : CDSCol) (f : Fmtr) :
    (col.applyFormatter f).min = f.min ∧ (col.applyFormatter f).max = f.max := by
  unfold CDSCol.applyFormatter
  cases col.forceFormat <;> exact ⟨rfl, rfl⟩

theorem convertNone_cells_float {col : CDSCol} {v : PyFloat}
    (h : Cell.floatV v ∈ (col.convertNone).cells) : Cell.floatV v ∈ col.cells := by
  unfold CDSCol.convertNone at h
  split at h
  · simp only [List.mem_map] at h
    obtain ⟨x, hx, hxe⟩ := h
    split at hxe
    · cases hxe
    · rw [hxe] at hx; exact hx
  · exact h

/-- A float column `[1.5, 2.5]`. -/
def c4col : CDSCol := CDSCol.mk0
  [.floatV ⟨false, ['1'], ['5'], none⟩, .floatV ⟨false, ['2'], ['5'], none⟩] false .f

/-- **C4 counterexample.**  The claim says that with a forced format,
width/bound derivation from the data is skipped.  It is not: `parse()` runs
the full inference first and keeps the data-derived bounds — for the float
column `[1.5, 2.5]` with forced `F10.5`, after `parse()` the descriptor has
`size == 10` but `min == 1.5` and `max == 2.5` (not `None`, which the forced
carrier formatter holds). -/
theorem C4_bounds_still_derived_counterexample :
    ((c4col.set_format "F10.5").bind CDSCol.parse).map (fun c => (c.size, c.min, c.max)) =
      .ok (some 10, some (.rv ⟨false, ['1'], ['5'], none⟩),
           some (.rv ⟨false, ['2'], ['5'], none⟩)) ∧
    ((c4col.set_format "F10.5").bind CDSCol.parse).map (fun c => c.min) ≠ .ok none := by
  refine ⟨by rfl, ?_⟩
  rw [show ((c4col.set_format "F10.5").bind CDSCol.parse).map (fun c => c.min) =
      .ok (some (NumV.rv ⟨false, ['1'], ['5'], none⟩)) from by rfl]
  simp

/-- **C4 (amended).**  If `set_format("F10.5")` is called on a fresh column
descriptor before `parse()`, then after `parse()` the descriptor's `size` is
10 and every written non-null float value has exactly 5 digits after the
decimal point regardless of inferred precision; the forced format takes
precedence permanently (re-parsing is memoized).  However, inference is not
skipped: it runs first, and the data-derived bounds `min`/`max` are kept —
they equal those of an unforced `parse()`. -/
theorem C4_forced_format_overrides (col col2 c : CDSCol)
    (hfm : col.formatter = none)
    (hsf : col.set_format "F10.5" = .ok col2)
    (hp : col2.parse = .ok c)
    (hdig : ∀ v : PyFloat, Cell.floatV v ∈ col.cells →
      v.ip.all isDigitC = true ∧ v.fp.all isDigitC = true) :
    c.size = some 10 ∧
    (∀ f, c.formatter = some f →
      f.size = 10 ∧ f.ffmt = "F10.5" ∧
      ∀ v : PyFloat, Cell.floatV v ∈ c.cells →
        fracCount (f.write (.floatV v)) = 5) ∧
    c.parse = .ok c ∧
    (∃ c0, col.parse = .ok c0 ∧ c.min = c0.min ∧ c.max = c0.max) := by
  have h2 : col.set_format "F10.5" = .ok { col with forceFormat := some c4ff } := rfl
  rw [h2] at hsf
  have hcol2 : { col with forceFormat := some c4ff } = col2 := by injection hsf
  subst hcol2
  have hfm2 : ({ col with forceFormat := some c4ff } : CDSCol).formatter = none := hfm
  obtain ⟨f, hb, rfl⟩ := (parse_ok_iff hfm2).mp hp
  rw [convertNone_force] at hb
  rw [buildFormatter_force] at hb
  have hc :
      CDSCol.applyFormatter
          (CDSCol.convertNone { col with forceFormat := some c4ff }) f
        = { col.convertNone with
            formatter := some { f with size := 10, ffmt := "F10.5", ofmt := .oF 10 5 },
            forceFormat := some c4ff,
            size := some 10, hasNull := some (col.convertNone).isMaskedCol,
            min := f.min, max := f.max } := by
    rw [convertNone_force]
    rfl
  rw [hc]
  refine ⟨rfl, ?_, parse_memoized rfl, ?_⟩
  · intro f2 hf2
    have hf2e : f2 = { f with size := 10, ffmt := "F10.5", ofmt := .oF 10 5 } := by
      injection hf2.symm
    subst hf2e
    refine ⟨rfl, rfl, ?_⟩
    intro v hv
    have hvcol : Cell.floatV v ∈ col.cells := convertNone_cells_float hv
    obtain ⟨hip, hfp⟩ := hdig v hvcol
    have hwrite : Fmtr.write { f with size := 10, ffmt := "F10.5", ofmt := .oF 10 5 }
        (.floatV v) = padLeft 10 (v.fixedRender 5) := by
      unfold Fmtr.write
      cases f.kind <;> rfl
    rw [hwrite]
    have hfx : padLeft 10 (v.fixedRender 5) =
        (blanks (10 - (v.fixedRender 5).length) ++
          ((if v.neg then ['-'] else []) ++ v.intDigits)) ++
          '.' :: takePad 5 v.fracDigits := by
      unfold padLeft PyFloat.fixedRender
      simp
    rw [hfx, fracCount_append_dot, takePad_length]
    intro ch hch
    rcases mem_takePad hch with hcm | hcm
    · have := fracDigits_digits hip hfp ch hcm
      intro he
      rw [he] at this
      exact absurd this (by decide)
    · rw [hcm]; decide
  · exact ⟨_, (parse_ok_iff hfm).mpr ⟨f, hb, rfl⟩,
      ((applyFormatter_minmax _ f).1).symm ▸ (applyFormatter_minmax _ f).1,
      ((applyFormatter_minmax _ f).2).symm ▸ (applyFormatter_minmax _ f).2⟩

/-- Witness for the amended C4 at the concrete column `[1.5, 2.5]`. -/
theorem C4_forced_format_overrides_witness :
    c4col.formatter = none ∧
    ∃ col2 c, c4col.set_format "F10.5" = .ok col2 ∧ col2.parse = .ok c ∧
      (c.size = some 10 ∧
       (∀ f, c.formatter = some f →
         f.size = 10 ∧ f.ffmt = "F10.5" ∧
         ∀ v : PyFloat, Cell.floatV v ∈ c.cells →
           fracCount (f.write (.floatV v)) = 5) ∧
       c.parse = .ok c ∧
       (∃ c0, c4col.parse = .ok c0 ∧ c.min = c0.min ∧ c.max = c0.max)) := by
  refine ⟨rfl, { c4col with forceFormat := some c4ff }, ?_⟩
  obtain ⟨c, hc⟩ : ∃ c, ({ c4col with forceFormat := some c4ff } : CDSCol).parse = .ok c :=
    ⟨_, rfl⟩
  refine ⟨c, rfl, hc, ?_⟩
  refine C4_forced_format_overrides c4col _ c rfl rfl hc ?_
  intro v hv
  simp only [c4col, CDSCol.mk0, List.mem_cons] at hv
  rcases hv with hv | hv | hv
  · cases hv; exact ⟨rfl, rfl⟩
  · cases hv; exact ⟨rfl, rfl⟩
  · cases hv

/-! ## Claim C2 — list and digit-width helpers -/

theorem mapO_mem {α : Type} {f : Cell → Option α} :
    ∀ {cells : List Cell} {vals : List α}, mapO f cells = some vals →
    ∀ c ∈ cells, ∃ o, f c = some o ∧ o ∈ vals := by
  intro cells
  induction cells with
  | nil => intro vals _ c hc; cases hc
  | cons x xs ih =>
    intro vals h c hc
    unfold mapO at h
    cases hfx : f x with
    | none => rw [hfx] at h; exact absurd h (by simp)
    | some o =>
      rw [hfx] at h
      cases hrest : mapO f xs with
      | none => rw [hrest] at h; exact absurd h (by simp)
      | some os =>
        rw [hrest] at h
        cases h
        rcases List.mem_cons.mp hc with rfl | hc2
        · exact ⟨o, hfx, by simp⟩
        · obtain ⟨o2, ho2, hmem⟩ := ih hrest c hc2
          exact ⟨o2, ho2, by simp [hmem]⟩

theorem foldl_max_init {α : Type} [LinearOrder α] (l : List α) (a : α) :
    a ≤ l.foldl max a := by
  induction l generalizing a with
  | nil => exact le_refl a
  | cons y ys ih => exact le_trans (le_max_left a y) (ih (max a y))

theorem foldl_max_le_mem {α : Type} [LinearOrder α] {l : List α} {x : α} (a : α)
    (h : x ∈ l) : x ≤ l.foldl max a := by
  induction l generalizing a with
  | nil => cases h
  | cons y ys ih =>
    rcases List.mem_cons.mp h with rfl | hm
    · exact le_trans (le_max_right a x) (foldl_max_init ys (max a x))
    · exact ih (max a y) hm

theorem foldl_min_init {α : Type} [LinearOrder α] (l : List α) (a : α) :
    l.foldl min a ≤ a := by
  induction l generalizing a with
  | nil => exact le_refl a
  | cons y ys ih => exact le_trans (ih (min a y)) (min_le_left a y)

theorem foldl_min_le_mem {α : Type} [LinearOrder α] {l : List α} {x : α} (a : α)
    (h : x ∈ l) : l.foldl min a ≤ x := by
  induction l generalizing a with
  | nil => cases h
  | cons y ys ih =>
    rcases List.mem_cons.mp h with rfl | hm
    · exact le_trans (foldl_min_init ys (min a x)) (min_le_right a x)
    · exact ih (min a y) hm

theorem blanks_length (n : Nat) : (blanks n).length = n := by
  simp [blanks]

theorem intStr_length (n : Int) :
    (intStr n).length = (if n < 0 then 1 else 0) + (natDigitChars n.natAbs).length := by
  unfold intStr
  split <;> simp <;> omega

theorem natAbs_mono_nonneg {m n : Int} (h0 : 0 ≤ m) (h : m ≤ n) : m.natAbs ≤ n.natAbs := by
  omega

/-- Width bound for the integer formatter: every slot value's decimal string
is no longer than the longer of `str(min)` and `str(max)`. -/
theorem intSlot_member_width {vals : List (Option Int)} {hasNull : Bool}
    {mn mx : Option Int} {n : Int}
    (hs : intSlot vals hasNull = some (mn, mx))
    (hmem : some n ∈ vals) :
    (intStr n).length ≤ max (strOptInt mx).length (strOptInt mn).length := by
  unfold intSlot at hs
  by_cases h0 : 0 ≤ n
  · -- bound through the maximum
    have key : ∀ mxv, mx = some mxv → n ≤ mxv →
        (intStr n).length ≤ max (strOptInt mx).length (strOptInt mn).length := by
      intro mxv hmx hle
      have h1 : (intStr n).length ≤ (intStr mxv).length := by
        rw [intStr_length, intStr_length, if_neg (by omega), if_neg (by omega)]
        simpa using natDigitChars_length_mono (by omega : n.natAbs ≤ mxv.natAbs)
      rw [hmx]
      exact le_trans h1 (le_max_left _ _)
    split at hs
    · -- hasNull: sentinel fill
      rename_i hnull
      cases hM : maxListO (vals.map (fun o => o.getD (-999999))) with
      | none => rw [hM] at hs; exact absurd hs (by simp)
      | some mxF =>
        rw [hM] at hs
        cases hm : minListO (vals.map (fun o => o.getD 999999)) with
        | none => rw [hm] at hs; exact absurd hs (by simp)
        | some mnF =>
          rw [hm] at hs
          cases hs
          have hnle : n ≤ mxF := by
            cases hv : vals.map (fun o => o.getD (-999999)) with
            | nil => rw [hv] at hM; exact absurd hM (by simp [maxListO])
            | cons x xs =>
              rw [hv] at hM
              unfold maxListO at hM
              cases hM
              have hnmem : n ∈ x :: xs := by
                rw [← hv]
                exact List.mem_map.mpr ⟨some n, hmem, rfl⟩
              rcases List.mem_cons.mp hnmem with rfl | hm2
              · exact foldl_max_init xs n
              · exact foldl_max_le_mem x hm2
          refine key mxF ?_ hnle
          rw [if_neg (by omega)]
    · -- no nulls: plain extrema
      cases hM : maxListO (vals.filterMap id) with
      | none => rw [hM] at hs; exact absurd hs (by simp)
      | some mxF =>
        rw [hM] at hs
        cases hm : minListO (vals.filterMap id) with
        | none => rw [hm] at hs; exact absurd hs (by simp)
        | some mnF =>
          rw [hm] at hs
          cases hs
          have hnle : n ≤ mxF := by
            cases hv : vals.filterMap id with
            | nil => rw [hv] at hM; exact absurd hM (by simp [maxListO])
            | cons x xs =>
              rw [hv] at hM
              unfold maxListO at hM
              cases hM
              have hnmem : n ∈ x :: xs := by
                rw [← hv]
                exact List.mem_filterMap.mpr ⟨some n, hmem, rfl⟩
              rcases List.mem_cons.mp hnmem with rfl | hm2
              · exact foldl_max_init xs n
              · exact foldl_max_le_mem x hm2
          exact key mxF rfl hnle
  · -- negative: bound through the minimum
    have key : ∀ mnv, mn = some mnv → mnv ≤ n →
        (intStr n).length ≤ max (strOptInt mx).length (strOptInt mn).length := by
      intro mnv hmn hle
      have h1 : (intStr n).length ≤ (intStr mnv).length := by
        rw [intStr_length, intStr_length, if_pos (by omega), if_pos (by omega)]
        simpa using natDigitChars_length_mono (by omega : n.natAbs ≤ mnv.natAbs)
      rw [hmn]
      exact le_trans h1 (le_max_right _ _)
    split at hs
    · rename_i hnull
      cases hM : maxListO (vals.map (fun o => o.getD (-999999))) with
      | none => rw [hM] at hs; exact absurd hs (by simp)
      | some mxF =>
        rw [hM] at hs
        cases hm : minListO (vals.map (fun o => o.getD 999999)) with
        | none => rw [hm] at hs; exact absurd hs (by simp)
        | some mnF =>
          rw [hm] at hs
          cases hs
          have hnle : mnF ≤ n := by
            cases hv : vals.map (fun o => o.getD 999999) with
            | nil => rw [hv] at hm; exact absurd hm (by simp [minListO])
            | cons x xs =>
              rw [hv] at hm
              unfold minListO at hm
              cases hm
              have hnmem : n ∈ x :: xs := by
                rw [← hv]
                exact List.mem_map.mpr ⟨some n, hmem, rfl⟩
              rcases List.mem_cons.mp hnmem with rfl | hm2
              · exact foldl_min_init xs n
              · exact foldl_min_le_mem x hm2
          refine key mnF ?_ hnle
          rw [if_neg (by omega)]
    · cases hM : maxListO (vals.filterMap id) with
      | none => rw [hM] at hs; exact absurd hs (by simp)
      | some mxF =>
        rw [hM] at hs
        cases hm : minListO (vals.filterMap id) with
        | none => rw [hm] at hs; exact absurd hs (by simp)
        | some mnF =>
          rw [hm] at hs
          cases hs
          have hnle : mnF ≤ n := by
            cases hv : vals.filterMap id with
            | nil => rw [hv] at hm; exact absurd hm (by simp [minListO])
            | cons x xs =>
              rw [hv] at hm
              unfold minListO at hm
              cases hm
              have hnmem : n ∈ x :: xs := by
                rw [← hv]
                exact List.mem_filterMap.mpr ⟨some n, hmem, rfl⟩
              rcases List.mem_cons.mp hnmem with rfl | hm2
              · exact foldl_min_init xs n
              · exact foldl_min_le_mem x hm2
          exact key mnF rfl hnle

/-- Write-width invariant of the integer formatter. -/
theorem intFormatter_write_len {vals : List (Option Int)} {hasNull : Bool} {f : Fmtr}
    (hf : intFormatter vals hasNull = some f) :
    (∀ n : Int, some n ∈ vals → (f.write (.intV n)).length = f.size) ∧
    f.write .masked = blanks f.size := by
  unfold intFormatter at hf
  cases hs : intSlot vals hasNull with
  | none => rw [hs] at hf; exact absurd hf (by simp)
  | some p =>
    obtain ⟨mn, mx⟩ := p
    rw [hs] at hf
    cases hf
    constructor
    · intro n hmem
      show (padLeft (max (strOptInt mx).length (strOptInt mn).length) (intStr n)).length = _
      exact padLeft_length _ _ (intSlot_member_width hs hmem)
    · rfl

/-- Write-width invariant of the string formatter. -/
theorem strFormatter_write_len {vals : List (Option (List Char))} {dsize : Option Nat}
    {hasNull : Bool} {s : List Char}
    (hmem : some s ∈ vals)
    (hb : hasNull = true ∨ ∃ d, dsize = some d ∧ s.length ≤ d) :
    ((strFormatter vals dsize hasNull).write (.strV s)).length
        = (strFormatter vals dsize hasNull).size ∧
    (strFormatter vals dsize hasNull).write .masked
        = blanks (strFormatter vals dsize hasNull).size := by
  constructor
  · show (padRight _ s).length = _
    refine padRight_length _ _ ?_
    cases hn : hasNull with
    | true =>
      simp only [strFormatter, hn, if_pos]
      have : s.length ∈ (vals.map (fun o => (o.getD []).length)) :=
        List.mem_map.mpr ⟨some s, hmem, rfl⟩
      exact foldl_max_le_mem 0 this
    | false =>
      rcases hb with hb | ⟨d, hd, hlen⟩
      · exact absurd hb (by rw [hn]; simp)
      · simp only [strFormatter, hn, hd]
        simpa using hlen
  · rfl

/-! ## Claim C2 — float rendering facts -/

theorem takeWhile_stop (p : Char → Bool) (a b : List Char)
    (h : ∀ c ∈ a, p c = true) (hb : ∀ x xs, b = x :: xs → p x = false) :
    (a ++ b).takeWhile p = a := by
  rw [takeWhile_append_all p a b h]
  cases hbb : b with
  | nil => simp
  | cons x xs =>
    rw [List.takeWhile_cons_of_neg (by simp [hb x xs hbb])]
    simp

theorem dropWhile_append_all (p : Char → Bool) (a b : List Char)
    (h : ∀ c ∈ a, p c = true) :
    (a ++ b).dropWhile p = b.dropWhile p := by
  induction a with
  | nil => simp
  | cons x xs ih =>
    simp only [List.cons_append]
    rw [List.dropWhile_cons_of_pos (h x (by simp))]
    exact ih (fun c hc => h c (by simp [hc]))

theorem stripTrail0_append_zeros (l : List Char) (k : Nat) :
    stripTrail0 (l ++ zeros k) = stripTrail0 l := by
  unfold stripTrail0
  rw [List.reverse_append]
  rw [dropWhile_append_all _ _ _ (fun c hc => by
    simp only [zeros, List.mem_reverse] at hc
    simp [List.eq_of_mem_replicate hc])]

theorem takePad_of_le {C : Nat} {l : List Char} (h : l.length ≤ C) :
    takePad C l = l ++ zeros (C - l.length) := by
  unfold takePad
  rw [List.take_of_length_le h]

theorem stripTrail0_takePad_le {C : Nat} {l : List Char} (h : l.length ≤ C) :
    (stripTrail0 (takePad C l)).length ≤ l.length := by
  rw [takePad_of_le h, stripTrail0_append_zeros]
  exact stripTrail0_length_le l

theorem isDigit_not_sign {c : Char} (h : isDigitC c = true) : isSignC c = false := by
  have h1 : c ≠ '+' := by intro he; subst he; exact absurd h (by decide)
  have h2 : c ≠ '-' := by intro he; subst he; exact absurd h (by decide)
  simp [isSignC, h1, h2]

theorem isDigit_not_stop {c : Char} (h : isDigitC c = true) : stopG2 c = false := by
  have h1 : c ≠ 'e' := by intro he; subst he; exact absurd h (by decide)
  have h2 : c ≠ 'E' := by intro he; subst he; exact absurd h (by decide)
  have h3 : c ≠ '.' := by intro he; subst he; exact absurd h (by decide)
  simp [stopG2, h1, h2, h3]

theorem isDigit_ne {c : Char} (h : isDigitC c = true) {d : Char}
    (hd : isDigitC d = false) : c ≠ d := by
  intro he; subst he; rw [h] at hd; cases hd

theorem digitChar_isDigit {m : Nat} (h : m < 10) :
    isDigitC (Char.ofNat (48 + m)) = true := by
  interval_cases m <;> decide

theorem natDigitChars_digits (n : Nat) : ∀ c ∈ natDigitChars n, isDigitC c = true := by
  induction n using Nat.strong_induction_on with
  | _ n ih =>
    rw [natDigitChars_eq]
    split
    · rename_i h
      intro c hc
      simp only [List.mem_singleton] at hc
      subst hc
      exact digitChar_isDigit h
    · rename_i h
      intro c hc
      simp only [List.mem_append, List.mem_singleton] at hc
      rcases hc with hc | hc
      · exact ih _ (Nat.div_lt_self (by omega) (by omega)) c hc
      · subst hc
        exact digitChar_isDigit (Nat.mod_lt _ (by omega))

theorem natDigitChars_ne_nil (n : Nat) : natDigitChars n ≠ [] := by
  have := natDigitChars_length_pos n
  intro h
  rw [h] at this
  simp at this

theorem expRender_length_ge (k : Int) : 3 ≤ (expRender k).length := by
  unfold expRender
  have := natDigitChars_length_pos k.natAbs
  split <;> (simp only [List.length_cons]; split <;> simp <;> omega)

theorem expRender_digits_tail (k : Int) :
    ∃ d ds, (if (natDigitChars k.natAbs).length < 2
             then '0' :: natDigitChars k.natAbs else natDigitChars k.natAbs) = d :: ds ∧
      isDigitC d = true := by
  split
  · exact ⟨'0', _, rfl, by decide⟩
  · cases hnd : natDigitChars k.natAbs with
    | nil => exact absurd hnd (natDigitChars_ne_nil _)
    | cons d ds =>
      exact ⟨d, ds, rfl, natDigitChars_digits _ d (by rw [hnd]; simp)⟩

/-- The exponent suffix of a rendering, including the letter. -/
def expTail (exp : Option Int) : List Char :=
  match exp with | none => [] | some k => 'e' :: expRender k

/-- Group 5 that `REG_FLOAT` extracts from a rendering with exponent
suffix `expTail exp`. -/
def g5Of (exp : Option Int) : List Char :=
  match exp with | none => [] | some k => 'e' :: (if k < 0 then ['-'] else [])

theorem expTail_head (exp : Option Int) :
    ∀ x xs, expTail exp = x :: xs → x = 'e' := by
  intro x xs hx
  cases exp with
  | none => exact absurd hx (by simp [expTail])
  | some k =>
    unfold expTail at hx
    injection hx with h1 h2
    exact h1.symm

/-- Group decomposition of `ip ++ [.fp] ++ tail` where `tail` is empty or
starts with `e`. -/
theorem fgroups_decomp (ip fp tailE : List Char)
    (hipn : ip ≠ []) (hipd : ∀ c ∈ ip, isDigitC c = true)
    (hfpd : ∀ c ∈ fp, isDigitC c = true)
    (htail : ∀ x xs, tailE = x :: xs → x = 'e') :
    fg2 (ip ++ (if fp = [] then [] else '.' :: fp) ++ tailE) = ip ∧
    fg3 (ip ++ (if fp = [] then [] else '.' :: fp) ++ tailE)
      = (if fp = [] then [] else ['.']) ∧
    fg4 (ip ++ (if fp = [] then [] else '.' :: fp) ++ tailE) = fp ∧
    fr4 (ip ++ (if fp = [] then [] else '.' :: fp) ++ tailE) = tailE := by
  have hestop : ∀ x xs, tailE = x :: xs → (!stopG2 x) = false := by
    intro x xs hx
    rw [htail x xs hx]
    rfl
  have hedot : ∀ x xs, tailE = x :: xs → decide (x = '.') = false := by
    intro x xs hx
    rw [htail x xs hx]
    rfl
  have hedig : ∀ x xs, tailE = x :: xs → isDigitC x = false := by
    intro x xs hx
    rw [htail x xs hx]
    rfl
  by_cases hfp : fp = []
  · subst hfp
    rw [if_pos rfl, List.append_nil]
    have h2 : fg2 (ip ++ tailE) = ip :=
      takeWhile_stop _ ip tailE
        (fun c hc => by rw [isDigit_not_stop (hipd c hc)]; rfl) hestop
    have hr2 : fr2 (ip ++ tailE) = tailE := by
      unfold fr2
      rw [h2, List.drop_left]
    have h3 : fg3 (ip ++ tailE) = [] := by
      unfold fg3
      rw [hr2]
      cases ht : tailE with
      | nil => rfl
      | cons x xs => rw [List.takeWhile_cons_of_neg (by simp [hedot x xs ht])]
    have hr3 : fr3 (ip ++ tailE) = tailE := by
      unfold fr3
      rw [h3, hr2]
      rfl
    have h4 : fg4 (ip ++ tailE) = [] := by
      unfold fg4
      rw [hr3]
      cases ht : tailE with
      | nil => rfl
      | cons x xs => rw [List.takeWhile_cons_of_neg (by simp [hedig x xs ht])]
    refine ⟨h2, h3, h4, ?_⟩
    unfold fr4
    rw [h4, hr3]
    rfl
  · rw [if_neg hfp, if_neg hfp]
    have hassoc : ip ++ ('.' :: fp) ++ tailE = ip ++ ('.' :: (fp ++ tailE)) := by simp
    rw [hassoc]
    have h2 : fg2 (ip ++ ('.' :: (fp ++ tailE))) = ip :=
      takeWhile_stop _ ip _
        (fun c hc => by rw [isDigit_not_stop (hipd c hc)]; rfl)
        (fun x xs hx => by cases hx; rfl)
    have hr2 : fr2 (ip ++ ('.' :: (fp ++ tailE))) = '.' :: (fp ++ tailE) := by
      unfold fr2
      rw [h2, List.drop_left]
    have h3 : fg3 (ip ++ ('.' :: (fp ++ tailE))) = ['.'] := by
      unfold fg3
      rw [hr2]
      have : ('.' :: (fp ++ tailE)) = ['.'] ++ (fp ++ tailE) := rfl
      rw [this]
      refine takeWhile_stop _ ['.'] _ (fun c hc => by
        simp only [List.mem_singleton] at hc
        simp [hc]) ?_
      intro x xs hx
      cases hfpc : fp with
      | nil => exact absurd hfpc hfp
      | cons f0 ft =>
        rw [hfpc] at hx
        injection hx with h1 h2
        subst h1
        have hd : isDigitC f0 = true := hfpd f0 (by rw [hfpc]; simp)
        simp [isDigit_ne hd (by decide : isDigitC '.' = false)]
    have hr3 : fr3 (ip ++ ('.' :: (fp ++ tailE))) = fp ++ tailE := by
      unfold fr3
      rw [h3, hr2]
      rfl
    have h4 : fg4 (ip ++ ('.' :: (fp ++ tailE))) = fp := by
      unfold fg4
      rw [hr3]
      exact takeWhile_stop _ fp tailE hfpd hedig
    refine ⟨h2, h3, h4, ?_⟩
    unfold fr4
    rw [h4, hr3, List.drop_left]

/-- The groups `REG_FLOAT` extracts from the `str()` rendering of a float
value: group 1 is the sign, group 2 the integer digits, group 4 the fraction
digits, and group 5 is non-empty exactly for scientific renderings. -/
theorem regFloatMatch_render {v : PyFloat}
    (hip : v.ip ≠ []) (hipd : v.ip.all isDigitC = true)
    (hfpd : v.fp.all isDigitC = true) :
    regFloatMatch v.render = some
      ⟨(if v.neg then ['-'] else []), v.ip, (if v.fp = [] then [] else ['.']), v.fp,
       g5Of v.exp⟩ := by
  obtain ⟨neg, ip, fp, exp⟩ := v
  have hipc : ∀ c ∈ ip, isDigitC c = true := List.all_eq_true.mp hipd
  have hfpc : ∀ c ∈ fp, isDigitC c = true := List.all_eq_true.mp hfpd
  obtain ⟨h2, h3, h4, hr4⟩ :=
    fgroups_decomp ip fp (expTail exp) hip hipc hfpc (expTail_head exp)
  have hrend : (PyFloat.mk neg ip fp exp).render
      = (if neg then ['-'] else []) ++
        (ip ++ (if fp = [] then [] else '.' :: fp) ++ expTail exp) := by
    cases exp <;> simp [PyFloat.render, expTail, List.append_assoc]
  have hsw : ((if neg then ['-'] else []) ++
        (ip ++ (if fp = [] then [] else '.' :: fp) ++ expTail exp)).takeWhile isSignC
      = (if neg then ['-'] else []) := by
    refine takeWhile_stop _ _ _ (fun c hc => ?_) (fun x xs hx => ?_)
    · split at hc
      · simp only [List.mem_singleton] at hc
        subst hc
        rfl
      · cases hc
    · cases hipcons : ip with
      | nil => exact absurd hipcons hip
      | cons i0 it =>
        rw [hipcons] at hx
        simp only [List.cons_append] at hx
        injection hx with h1 h2
        subst h1
        exact isDigit_not_sign (hipc i0 (by rw [hipcons]; simp))
  have hdrop : ((if neg then ['-'] else []) ++
        (ip ++ (if fp = [] then [] else '.' :: fp) ++ expTail exp)).drop
        (if neg then ['-'] else []).length
      = ip ++ (if fp = [] then [] else '.' :: fp) ++ expTail exp :=
    List.drop_left _ _
  have hg5 : fg5 (ip ++ (if fp = [] then [] else '.' :: fp) ++ expTail exp)
      = g5Of exp := by
    unfold fg5
    rw [hr4]
    cases exp with
    | none => rfl
    | some k =>
      simp only [expTail, g5Of]
      obtain ⟨d, ds, hds, hdig⟩ := expRender_digits_tail k
      have hexp : expRender k = (if k < 0 then '-' else '+') :: (d :: ds) := by
        unfold expRender
        rw [hds]
      have he5 : ('e' :: expRender k).takeWhile (fun c => c = 'e' || c = 'E') = ['e'] := by
        have hsplit : ('e' :: expRender k) = ['e'] ++ expRender k := rfl
        rw [hsplit]
        refine takeWhile_stop _ _ _ (fun c hc => by
          simp only [List.mem_singleton] at hc
          simp [hc]) ?_
        intro x xs hx
        rw [hexp] at hx
        injection hx with h1 h2
        subst h1
        split <;> rfl
      rw [he5]
      have hd1 : ('e' :: expRender k).drop (['e'] : List Char).length = expRender k := rfl
      rw [hd1, hexp]
      by_cases hk : k < 0
      · rw [if_pos hk, if_pos hk]
        have hm : ('-' :: (d :: ds)).takeWhile (fun c => c = '-') = ['-'] :=
          takeWhile_stop _ ['-'] (d :: ds)
            (fun c hc => by
              simp only [List.mem_singleton] at hc
              simp [hc])
            (fun x xs hx => by
              injection hx with h1 h2
              subst h1
              simp [isDigit_ne hdig (by decide : isDigitC '-' = false)])
        rw [hm]
        rfl
      · rw [if_neg hk, if_neg hk]
        rw [List.takeWhile_cons_of_neg (by decide)]
        rfl
  have htailr : regFloatTail (if neg then ['-'] else [])
      (ip ++ (if fp = [] then [] else '.' :: fp) ++ expTail exp)
      = some ⟨(if neg then ['-'] else []), ip, (if fp = [] then [] else ['.']), fp,
          g5Of exp⟩ := by
    unfold regFloatTail
    rw [h2, if_neg hip, h3, h4, hg5]
  show regFloatMatch (PyFloat.mk neg ip fp exp).render = _
  rw [hrend]
  unfold regFloatMatch
  rw [hsw, hdrop, htailr]




/-! ## Claim C2 — accumulator lemmas -/

theorem consumeG_sign {r : FloatRepr} {vlen : Int} {g : FloatGroups}
    (h1 : g.g1 ≠ []) : (consumeG r vlen g).sign = true := by
  have key : (if r.sign = false then !g.g1.isEmpty else r.sign) = true := by
    cases hrs : r.sign with
    | false =>
      rw [if_pos rfl]
      cases hg : g.g1 with
      | nil => exact absurd hg h1
      | cons a l => rfl
    | true => rfl
  unfold consumeG
  split <;> exact key

theorem consumeG_dec_e {r : FloatRepr} {vlen : Int} {g : FloatGroups}
    (h5 : g.g5.isEmpty = true) :
    (consumeG r vlen g).e_width = r.e_width ∧
    (consumeG r vlen g).e_precision = r.e_precision := by
  unfold consumeG
  rw [if_pos h5]
  exact ⟨rfl, rfl⟩

theorem consumeG_sci_e {r : FloatRepr} {vlen : Int} {g : FloatGroups}
    (h5 : ¬ g.g5.isEmpty = true) :
    ((consumeG r vlen g).e_precision = r.e_precision ∨
     (consumeG r vlen g).e_precision = (g.g2.length : Int) + g.g4.length) ∧
    r.e_width ≤ (consumeG r vlen g).e_width ∧
    vlen ≤ (consumeG r vlen g).e_width := by
  unfold consumeG
  rw [if_neg h5]
  refine ⟨?_, ?_, ?_⟩ <;> simp only []
  · split
    · right; rfl
    · left; rfl
  · split <;> omega
  · split <;> omega

theorem consumeG_absorb {r : FloatRepr} {vlen : Int} {g : FloatGroups}
    (h : r.type = FloatRepr.SCI ∨ r.type = FloatRepr.MIXED) :
    (consumeG r vlen g).type = FloatRepr.SCI ∨
    (consumeG r vlen g).type = FloatRepr.MIXED := by
  unfold consumeG
  split <;> simp only []
  · right
    rw [if_pos h.symm]
  · rcases h with h | h
    · rw [if_neg ?_]
      · left; rfl
      · intro hc
        rcases hc with hc | hc <;> rw [h] at hc <;> exact absurd hc (by decide)
    · right
      rw [if_pos (Or.inl h)]

theorem consumeList_absorb {vs : List String} :
    ∀ {r0 r : FloatRepr}, FloatRepr.consumeList r0 vs = .ok r →
    (r0.type = FloatRepr.SCI ∨ r0.type = FloatRepr.MIXED) →
    (r.type = FloatRepr.SCI ∨ r.type = FloatRepr.MIXED) := by
  induction vs with
  | nil =>
    intro r0 r h h0
    cases h
    exact h0
  | cons v vs ih =>
    intro r0 r h h0
    obtain ⟨g, hg, hrest⟩ := consumeList_cons_ok h
    exact ih hrest (consumeG_absorb h0)

theorem consumeList_dec_all {vs : List String} :
    ∀ {r0 r : FloatRepr}, FloatRepr.consumeList r0 vs = .ok r →
    ¬ (r.type = FloatRepr.SCI ∨ r.type = FloatRepr.MIXED) →
    ∀ v ∈ vs, isSciStr v = false := by
  induction vs with
  | nil => intro r0 r h hd v hv; cases hv
  | cons w vs ih =>
    intro r0 r h hd v hv
    obtain ⟨g, hg, hrest⟩ := consumeList_cons_ok h
    rcases List.mem_cons.mp hv with rfl | hv2
    · by_contra hsci
      have hsci2 : isSciStr v = true := by
        cases hx : isSciStr v
        · exact absurd hx hsci
        · rfl
      unfold isSciStr at hsci2
      rw [hg] at hsci2
      have h5 : ¬ g.g5.isEmpty = true := by simpa using hsci2
      obtain ⟨_, _, hty⟩ := @consumeG_value_sci r0 v.length g h5
      exact hd (consumeList_absorb hrest hty)
    · exact ih hrest hd v hv2

theorem consumeList_value_bounds_sep {vs : List String} :
    ∀ {r0 r : FloatRepr}, FloatRepr.consumeList r0 vs = .ok r →
    ∀ v ∈ vs, ∀ g : FloatGroups, regFloatMatch v.data = some g →
      (g.g1 ≠ [] → r.sign = true) ∧
      (g.g5.isEmpty = true →
        (g.g2.length : Int) ≤ r.f_dec ∧ (g.g4.length : Int) ≤ r.f_coma) ∧
      (¬ g.g5.isEmpty = true → (v.length : Int) ≤ r.e_width) := by
  induction vs with
  | nil => intro r0 r h v hv; cases hv
  | cons w vs ih =>
    intro r0 r h v hv g hgv
    obtain ⟨g0, hg0, hrest⟩ := consumeList_cons_ok h
    rcases List.mem_cons.mp hv with rfl | hv2
    · rw [hg0] at hgv
      injection hgv with hgg
      subst hgg
      obtain ⟨m1, m2, m3, m4, m5⟩ := consumeList_mono hrest
      refine ⟨?_, ?_, ?_⟩
      · intro h1
        exact m5 (consumeG_sign h1)
      · intro h5
        obtain ⟨b1, b2, _⟩ := @consumeG_value_dec r0 v.length g0 h5
        exact ⟨le_trans b1 m3, le_trans b2 m4⟩
      · intro h5
        obtain ⟨b1, _, _⟩ := @consumeG_value_sci r0 v.length g0 h5
        exact le_trans b1 m1
    · exact ih hrest v hv2 g hgv

theorem consumeList_einv {vs : List String}
    (hvs : ∀ v ∈ vs, isSciStr v = true → valuePrec v + 4 ≤ (v.length : Int)) :
    ∀ {r0 r : FloatRepr}, FloatRepr.consumeList r0 vs = .ok r →
    (r0.e_precision = -1 ∨ r0.e_precision + 4 ≤ r0.e_width) →
    (r.e_precision = -1 ∨ r.e_precision + 4 ≤ r.e_width) := by
  induction vs with
  | nil =>
    intro r0 r h h0
    cases h
    exact h0
  | cons w vs ih =>
    intro r0 r h h0
    obtain ⟨g, hg, hrest⟩ := consumeList_cons_ok h
    refine ih (fun v hv => hvs v (List.mem_cons_of_mem w hv)) hrest ?_
    cases h5 : g.g5.isEmpty with
    | true =>
      obtain ⟨he1, he2⟩ := @consumeG_dec_e r0 w.length g h5
      rw [he1, he2]
      exact h0
    | false =>
      have h5n : ¬ g.g5.isEmpty = true := by simp [h5]
      have hsci : isSciStr w = true := by
        unfold isSciStr
        rw [hg]
        show (!g.g5.isEmpty) = true
        rw [h5]
        rfl
      have hlen := hvs w (List.mem_cons_self w vs) hsci
      have hvp : valuePrec w = (g.g2.length : Int) + g.g4.length := by
        unfold valuePrec
        rw [hg]
      rw [hvp] at hlen
      obtain ⟨hep, hw1, hw2⟩ := @consumeG_sci_e r0 w.length g h5n
      rcases hep with he | he
      · rcases h0 with h0 | h0
        · left
          rw [he]
          exact h0
        · right
          rw [he]
          exact le_trans h0 hw1
      · right
        rw [he]
        exact le_trans hlen hw2

/-! ## Claim C2 — rendering length facts -/

theorem stripTrail0_takePad_le_any (C : Nat) (l : List Char) :
    (stripTrail0 (takePad C l)).length ≤ l.length := by
  by_cases h : l.length ≤ C
  · exact stripTrail0_takePad_le h
  · unfold takePad
    have hz : C - l.length = 0 := by omega
    rw [hz, show zeros 0 = [] from rfl, List.append_nil]
    calc (stripTrail0 (l.take C)).length
        ≤ (l.take C).length := stripTrail0_length_le _
      _ ≤ l.length := by rw [List.length_take]; omega

theorem render_length (v : PyFloat) :
    v.render.length =
      (if v.neg then 1 else 0) + v.ip.length +
      (if v.fp = [] then 0 else 1 + v.fp.length) + (expTail v.exp).length := by
  obtain ⟨neg, ip, fp, exp⟩ := v
  cases neg <;> cases exp <;> by_cases hfp : fp = [] <;>
    simp [PyFloat.render, expTail, hfp, List.length_append] <;> omega

theorem render_sci_len {v : PyFloat} {k : Int} (hexp : v.exp = some k) :
    v.ip.length + v.fp.length + 4 ≤ v.render.length := by
  rw [render_length v]
  have h3 := expRender_length_ge k
  have hms : (expTail v.exp).length = 1 + (expRender k).length := by
    rw [hexp]
    simp [expTail]
    omega
  rw [hms]
  by_cases hfp : v.fp = [] <;> cases hn : v.neg <;> simp [hfp, hn] <;> omega

theorem fixedRender_len {v : PyFloat} (hexp : v.exp = none) (C : Nat) :
    (v.fixedRender C).length =
      (if v.neg then 1 else 0) + v.ip.length + (if C = 0 then 0 else 1 + C) := by
  unfold PyFloat.fixedRender
  have hid : v.intDigits = v.ip := by
    unfold PyFloat.intDigits
    rw [hexp]
  rw [hid]
  by_cases hC : C = 0 <;> cases hn : v.neg <;>
    simp [hC, hn, List.length_append, takePad_length] <;> omega

theorem gRender_len_dec {v : PyFloat} (hwf : v.WF) (hexp : v.exp = none) {N : Nat}
    (hN : v.ip.length + 1 ≤ N) :
    (v.gRender N).length ≤
      (if v.neg then 1 else 0) + v.ip.length + 1 + v.fp.length := by
  obtain ⟨hip, hipd, hfpd, hlead, hrest⟩ := hwf
  rw [hexp] at hrest
  have hrest2 : v.fp ≠ [] ∧ (-4 : Int) ≤ v.exp10 := hrest
  have hip1 : 1 ≤ v.ip.length := List.length_pos.mpr hip
  unfold PyFloat.gRender PyFloat.gBody
  by_cases hzm : v.isZeroMant
  · rw [if_pos hzm]
    cases hn : v.neg <;> simp [hn, List.length_append] <;> omega
  · have hub : v.exp10 ≤ (v.ip.length : Int) - 1 := by
      unfold PyFloat.exp10
      rw [hexp]
      show (if v.ip = ['0'] then -((v.fp.takeWhile (fun c => c = '0')).length : Int) - 1
            else (v.ip.length : Int) - 1) ≤ (v.ip.length : Int) - 1
      split
      · have h2 : (0 : Int) ≤ ((v.fp.takeWhile (fun c => c = '0')).length : Int) := by
          positivity
        omega
      · omega
    have hcond : -4 ≤ v.exp10 ∧ v.exp10 < (N : Int) := by
      refine ⟨hrest2.2, ?_⟩
      have hNi : (v.ip.length : Int) ≤ (N : Int) := by exact_mod_cast Nat.le_of_succ_le hN
      omega
    rw [if_neg hzm, if_pos hcond]
    have hid : v.intDigits = v.ip := by
      unfold PyFloat.intDigits
      rw [hexp]
    have hfd : v.fracDigits = v.fp := by
      unfold PyFloat.fracDigits
      rw [hexp]
    rw [hid, hfd]
    have hs := stripTrail0_takePad_le_any (((N : Int) - 1 - v.exp10).toNat) v.fp
    by_cases hstrip : stripTrail0 (takePad (((N : Int) - 1 - v.exp10).toNat) v.fp) = []
    · rw [if_pos hstrip]
      cases hn : v.neg <;> simp [hn, List.length_append] <;> omega
    · rw [if_neg hstrip]
      cases hn : v.neg <;> simp [hn, List.length_append] <;> omega

theorem gRender_len_sci {v : PyFloat} {k : Int} (hexp : v.exp = some k)
    (hip1 : v.ip.length = 1) (hip0 : v.ip ≠ ['0'])
    (hk16 : (16 : Int) ≤ k ∨ k ≤ -5)
    (hfpk : 0 ≤ k → (v.fp.length : Int) ≤ k) (N : Nat) :
    (v.gRender N).length ≤ v.render.length ∨
    (0 ≤ k ∧ k < (N : Int) ∧
      (v.gRender N).length = (if v.neg then 1 else 0) + 1 + k.toNat) := by
  obtain ⟨d, hd⟩ := List.length_eq_one.mp hip1
  have hd0 : d ≠ '0' := by
    intro he
    apply hip0
    rw [hd, he]
  have hzm : ¬ v.isZeroMant = true := by
    unfold PyFloat.isZeroMant
    rw [hd]
    simp [hd0]
  have he10 : v.exp10 = k := by
    unfold PyFloat.exp10
    rw [hexp]
  have hsig : v.sigDigits = d :: v.fp := by
    unfold PyFloat.sigDigits
    rw [hd]
    exact List.dropWhile_cons_of_neg (by simp [hd0])
  have hfrac0 : ∀ K : Nat, stripTrail0 (takePad K ([] : List Char)) = [] := by
    intro K
    unfold takePad
    rw [List.take_nil]
    exact stripTrail0_append_zeros [] _
  by_cases hcase : -4 ≤ k ∧ k < (N : Int)
  · right
    obtain ⟨hcl, hcr⟩ := hcase
    have hk0 : (0 : Int) ≤ k := by rcases hk16 with h | h <;> omega
    have hfple : v.fp.length ≤ k.toNat := by
      have := hfpk hk0
      omega
    have hid : v.intDigits = v.ip ++ v.fp ++ zeros (k.toNat - v.fp.length) := by
      unfold PyFloat.intDigits
      rw [hexp]
      show (if 0 ≤ k then v.ip ++ v.fp ++ zeros (k.toNat - v.fp.length) else ['0'])
          = v.ip ++ v.fp ++ zeros (k.toNat - v.fp.length)
      rw [if_pos hk0]
    have hfd : v.fracDigits = [] := by
      unfold PyFloat.fracDigits
      rw [hexp]
      show (if 0 ≤ k then ([] : List Char)
            else zeros ((-k).toNat - 1) ++ v.ip ++ v.fp) = ([] : List Char)
      rw [if_pos hk0]
    have hbody : v.gBody N = v.intDigits := by
      unfold PyFloat.gBody
      rw [he10, if_neg hzm, if_pos ⟨hcl, hcr⟩, hfd, if_pos (hfrac0 _), List.append_nil]
    have hidl : v.intDigits.length = 1 + k.toNat := by
      rw [hid]
      simp [List.length_append, zeros, hip1]
      omega
    refine ⟨hk0, hcr, ?_⟩
    unfold PyFloat.gRender
    rw [hbody]
    cases hn : v.neg <;> simp [hn, List.length_append, hidl] <;> omega
  · left
    have hbody : v.gBody N =
        [d] ++ (if stripTrail0 (takePad (N - 1) v.fp) = [] then []
                else '.' :: stripTrail0 (takePad (N - 1) v.fp)) ++ 'e' :: expRender k := by
      unfold PyFloat.gBody
      rw [he10, if_neg hzm, if_neg hcase, hsig]
    unfold PyFloat.gRender
    rw [hbody, render_length v]
    have hms : (expTail v.exp).length = 1 + (expRender k).length := by
      rw [hexp]
      simp [expTail]
      omega
    rw [hms]
    have hs := stripTrail0_takePad_le_any (N - 1) v.fp
    by_cases hstrip : stripTrail0 (takePad (N - 1) v.fp) = []
    · rw [if_pos hstrip]
      by_cases hfp : v.fp = [] <;> cases hn : v.neg <;>
        simp [hfp, hn, List.length_append] <;> omega
    · rw [if_neg hstrip]
      have hfpne : v.fp ≠ [] := by
        intro hfe
        apply hstrip
        rw [hfe]
        exact hfrac0 _
      rw [if_neg hfpne]
      cases hn : v.neg <;> simp [hn, List.length_append] <;> omega

/-! ## Claim C2 — float formatter write width -/

theorem isSciStr_render {v : PyFloat} (hip : v.ip ≠ [])
    (hipd : v.ip.all isDigitC = true) (hfpd : v.fp.all isDigitC = true) :
    isSciStr (String.mk v.render) = v.exp.isSome := by
  unfold isSciStr
  rw [show (String.mk v.render).data = v.render from rfl,
      regFloatMatch_render hip hipd hfpd]
  show (!(g5Of v.exp).isEmpty) = v.exp.isSome
  cases hexp : v.exp <;> simp [g5Of]

theorem valuePrec_render {v : PyFloat} (hip : v.ip ≠ [])
    (hipd : v.ip.all isDigitC = true) (hfpd : v.fp.all isDigitC = true) :
    valuePrec (String.mk v.render) = (v.ip.length : Int) + v.fp.length := by
  unfold valuePrec
  rw [show (String.mk v.render).data = v.render from rfl,
      regFloatMatch_render hip hipd hfpd]

theorem groups_render {v : PyFloat} (hip : v.ip ≠ [])
    (hipd : v.ip.all isDigitC = true) (hfpd : v.fp.all isDigitC = true)
    {g : FloatGroups} (hg : regFloatMatch (String.mk v.render).data = some g) :
    g.g1 = (if v.neg then ['-'] else []) ∧ g.g2 = v.ip ∧ g.g4 = v.fp ∧
    g.g5 = g5Of v.exp := by
  rw [show (String.mk v.render).data = v.render from rfl,
      regFloatMatch_render hip hipd hfpd] at hg
  injection hg with hg2
  rw [← hg2]
  exact ⟨rfl, rfl, rfl, rfl⟩

/-- A float column's textual values: `str()` of masked is `"--"`, of NaN is
`"nan"`, otherwise the rendering of a well-formed float value. -/
theorem floatVals_sciOK {cells : List Cell}
    (hwf : ∀ c ∈ cells, c = .masked ∨ c = .nanV ∨ ∃ v, c = .floatV v ∧ v.WF) :
    ∀ s ∈ floatVals cells, isSciStr s = true → valuePrec s + 4 ≤ (s.length : Int) := by
  intro s hs hsci
  obtain ⟨c, hc, hcs⟩ := List.mem_filterMap.mp hs
  rcases hwf c hc with rfl | rfl | ⟨v, rfl, hv⟩
  · simp only [cellFloatStr] at hcs
    injection hcs with h
    subst h
    exact absurd hsci (by decide)
  · simp only [cellFloatStr] at hcs
    injection hcs with h
    subst h
    exact absurd hsci (by decide)
  · simp only [cellFloatStr] at hcs
    injection hcs with h
    subst h
    obtain ⟨hip, hipd, hfpd, hlead, hrest⟩ := hv
    rw [valuePrec_render hip hipd hfpd]
    cases hexp : v.exp with
    | none =>
      rw [isSciStr_render hip hipd hfpd, hexp] at hsci
      cases hsci
    | some k =>
      have h2 := render_sci_len hexp
      show (v.ip.length : Int) + v.fp.length + 4 ≤ (v.render.length : Int)
      exact_mod_cast h2

theorem floatFormatter_ok {cells : List Cell} {hasNull : Bool} {f : Fmtr}
    (hf : floatFormatter cells hasNull = .ok f) :
    ∃ slot r ff ofmt,
      floatSlot cells hasNull = some slot ∧
      FloatRepr.consumeList FloatRepr.init (floatVals cells) = .ok r ∧
      r.fortran_format = .ok ff ∧ r.ofmtOf = .ok ofmt ∧
      f = { kind := .floatK, ffmt := ff, size := r.width.toNat, ofmt := ofmt,
            min := slot.1.map .rv, max := slot.2.map .rv } := by
  cases hslot : floatSlot cells hasNull with
  | none =>
    have key : floatFormatter cells hasNull = .error "ValueError: max of an empty column" := by
      unfold floatFormatter
      rw [hslot]
    rw [key] at hf
    cases hf
  | some slot =>
    have key : floatFormatter cells hasNull = floatFormatterRepr cells slot := by
      unfold floatFormatter
      rw [hslot]
    rw [key] at hf
    cases hr : FloatRepr.consumeList FloatRepr.init (floatVals cells) with
    | error e =>
      have key2 : floatFormatterRepr cells slot = .error e := by
        unfold floatFormatterRepr
        rw [hr]
      rw [key2] at hf
      cases hf
    | ok r =>
      have key2 : floatFormatterRepr cells slot = floatFormatterFmt r slot := by
        unfold floatFormatterRepr
        rw [hr]
      rw [key2] at hf
      cases hff : r.fortran_format with
      | error e =>
        have key3 : floatFormatterFmt r slot = .error e := by
          unfold floatFormatterFmt
          rw [hff]
        rw [key3] at hf
        cases hf
      | ok ff =>
        cases hof : r.ofmtOf with
        | error e =>
          have key3 : floatFormatterFmt r slot = .error e := by
            unfold floatFormatterFmt
            rw [hff, hof]
          rw [key3] at hf
          cases hf
        | ok ofmt =>
          have key3 : floatFormatterFmt r slot
              = Except.ok { kind := .floatK, ffmt := ff, size := r.width.toNat,
                            ofmt := ofmt, min := slot.1.map .rv,
                            max := slot.2.map .rv } := by
            unfold floatFormatterFmt
            rw [hff, hof]
          rw [key3] at hf
          injection hf with h2
          exact ⟨slot, r, ff, ofmt, rfl, rfl, hff, hof, h2.symm⟩

theorem width_lb {r : FloatRepr} (hS : ¬ r.type = FloatRepr.SCI) :
    decWidth r ≤ r.width ∧ (¬ r.type = FloatRepr.DEC → r.e_width ≤ r.width) := by
  constructor
  · simp only [FloatRepr.width, decWidth, if_neg hS]
    split <;> first | omega | (split <;> first | omega | (split <;> omega))
  · intro hD
    simp only [FloatRepr.width, if_neg hS, if_neg hD]
    split <;> first | omega | (split <;> first | omega | (split <;> omega))

theorem floatFormatter_write_len {cells : List Cell} {hasNull : Bool} {f : Fmtr}
    (hwf : ∀ c ∈ cells, c = .masked ∨ c = .nanV ∨ ∃ v, c = .floatV v ∧ v.WF)
    (hf : floatFormatter cells hasNull = .ok f) :
    (∀ c ∈ cells, (f.write c).length = f.size) ∧
    f.write .masked = blanks f.size ∧ f.write .nanV = blanks f.size := by
  obtain ⟨slot, r, ff, ofmt, hslot, hr, hff, hof, hfeq⟩ := floatFormatter_ok hf
  subst hfeq
  refine ⟨?_, rfl, rfl⟩
  intro c hc
  rcases hwf c hc with rfl | rfl | ⟨v, rfl, hv⟩
  · show (blanks (FloatRepr.width r).toNat).length = (FloatRepr.width r).toNat
    exact blanks_length _
  · show (blanks (FloatRepr.width r).toNat).length = (FloatRepr.width r).toNat
    exact blanks_length _
  · obtain ⟨hip, hipd, hfpd, hlead, hrest⟩ := id hv
    have hmem : String.mk v.render ∈ floatVals cells :=
      List.mem_filterMap.mpr ⟨.floatV v, hc, rfl⟩
    have hmatch : regFloatMatch (String.mk v.render).data
        = some ⟨(if v.neg then ['-'] else []), v.ip, (if v.fp = [] then [] else ['.']),
                v.fp, g5Of v.exp⟩ := by
      rw [show (String.mk v.render).data = v.render from rfl]
      exact regFloatMatch_render hip hipd hfpd
    obtain ⟨hsgn, hdec, hsci⟩ :=
      consumeList_value_bounds_sep hr (String.mk v.render) hmem _ hmatch
    have hsgnv : v.neg = true → r.sign = true := by
      intro hn
      apply hsgn
      show (if v.neg then ['-'] else []) ≠ []
      rw [hn]
      simp
    have hsle : (((if v.neg then 1 else 0) : Nat) : Int) ≤ (if r.sign then 1 else 0) := by
      by_cases hn : v.neg = true
      · rw [if_pos hn, if_pos (hsgnv hn)]
        omega
      · rw [if_neg hn]
        split <;> omega
    obtain ⟨hiSM, hiDM, hiT⟩ := consumeList_inv hr FloatRepr.init_inv
    show (OutFmt.render ofmt (.floatV v)).length = (FloatRepr.width r).toNat
    unfold FloatRepr.ofmtOf at hof
    by_cases hS : r.type = FloatRepr.SCI
    · rw [if_pos hS] at hof
      cases hof
    rw [if_neg hS] at hof
    have hdw : decWidth r = r.f_dec + r.f_coma + 1 + (if r.sign then 1 else 0) := rfl
    by_cases hM : r.type = FloatRepr.MIXED
    · -- MIXED: %g with N = precision + 1 significant digits
      rw [if_pos hM] at hof
      injection hof with hof2
      subst hof2
      have hS2 : FloatRepr.MIXED ≠ FloatRepr.SCI := by decide
      have hD2 : FloatRepr.MIXED ≠ FloatRepr.DEC := by decide
      have hw : r.width = max (decWidth r) r.e_width := by
        simp only [FloatRepr.width, decWidth, hM, if_neg hS2, if_neg hD2]
        rw [max_def]
        split <;> split <;> split <;> omega
      have hp : r.precision = max (decPrec r) r.e_precision := by
        simp only [FloatRepr.precision, decPrec, hM, if_neg hS2, if_neg hD2]
        rw [max_def]
        split <;> split <;> omega
      have hwge : decWidth r ≤ r.width := by
        rw [hw]
        exact le_max_left _ _
      have hwge2 : r.e_width ≤ r.width := by
        rw [hw]
        exact le_max_right _ _
      have hdp : decPrec r = r.f_dec + r.f_coma := rfl
      have hpge : decPrec r ≤ r.precision := by
        rw [hp]
        exact le_max_left _ _
      have hpge2 : r.e_precision ≤ r.precision := by
        rw [hp]
        exact le_max_right _ _
      have he4 : r.e_precision + 4 ≤ r.e_width := by
        have heinv := consumeList_einv (floatVals_sciOK hwf) hr (Or.inl rfl)
        have h1 : 1 ≤ r.e_precision := (hiSM (Or.inr hM)).2
        rcases heinv with h | h
        · omega
        · exact h
      show (padLeft (FloatRepr.width r).toNat
        (v.gRender ((FloatRepr.precision r + 1).toNat))).length = (FloatRepr.width r).toNat
      refine padLeft_length _ _ ?_
      cases hexp : v.exp with
      | none =>
        obtain ⟨hb2v, hb4v⟩ := hdec (by
          show (g5Of v.exp).isEmpty = true
          rw [hexp]
          rfl)
        have hb2i : (v.ip.length : Int) ≤ r.f_dec := hb2v
        have hb4i : (v.fp.length : Int) ≤ r.f_coma := hb4v
        have hip1' : 1 ≤ v.ip.length := List.length_pos.mpr hip
        have hN : v.ip.length + 1 ≤ (FloatRepr.precision r + 1).toNat := by omega
        have hgl := gRender_len_dec hv hexp hN
        omega
      | some k =>
        have hrest2 : v.ip.length = 1 ∧ v.ip ≠ ['0'] ∧ ((16 : Int) ≤ k ∨ k ≤ -5) ∧
            (0 ≤ k → (v.fp.length : Int) ≤ k) := by
          rw [hexp] at hrest
          exact hrest
        obtain ⟨hip1, hip0, hk16, hfpk⟩ := hrest2
        have hrl : ((String.mk v.render).length : Int) ≤ r.e_width := hsci (by
          show ¬ (g5Of v.exp).isEmpty = true
          rw [hexp]
          simp [g5Of])
        have hrl2 : ((v.render.length : Nat) : Int) ≤ r.e_width := hrl
        rcases gRender_len_sci hexp hip1 hip0 hk16 hfpk ((FloatRepr.precision r + 1).toNat)
          with hgs | ⟨hk0, hkN, hglen⟩
        · omega
        · have hprec1 : 1 ≤ r.precision := le_trans (hiSM (Or.inr hM)).2 hpge2
          have hkp : k ≤ r.precision := by omega
          rw [hp] at hkp
          rcases le_max_iff.mp hkp with hkd | hke
          · omega
          · omega
    · -- DEC (or no value consumed): %f with f_coma fraction digits
      rw [if_neg hM] at hof
      injection hof with hof2
      subst hof2
      have hdall := consumeList_dec_all hr (fun h => h.elim hS hM)
      have hvdec : isSciStr (String.mk v.render) = false := hdall _ hmem
      rw [isSciStr_render hip hipd hfpd] at hvdec
      cases hexp : v.exp with
      | some k =>
        rw [hexp] at hvdec
        cases hvdec
      | none =>
        have hrest2 : v.fp ≠ [] ∧ (-4 : Int) ≤ v.exp10 := by
          rw [hexp] at hrest
          exact hrest
        obtain ⟨hb2v, hb4v⟩ := hdec (by
          show (g5Of v.exp).isEmpty = true
          rw [hexp]
          rfl)
        have hb2i : (v.ip.length : Int) ≤ r.f_dec := hb2v
        have hb4i : (v.fp.length : Int) ≤ r.f_coma := hb4v
        have hfp1 : 1 ≤ v.fp.length := List.length_pos.mpr hrest2.1
        have hfl := fixedRender_len hexp (r.f_coma.toNat)
        have hC : ¬ r.f_coma.toNat = 0 := by omega
        rw [if_neg hC] at hfl
        have hwge := (width_lb hS).1
        show (padLeft (FloatRepr.width r).toNat
          (v.fixedRender (r.f_coma.toNat))).length = (FloatRepr.width r).toNat
        refine padLeft_length _ _ ?_
        omega

/-- Cell contents consistent with the column's storage dtype (what an actual
astropy column provides): integer columns hold integers and masked entries;
float columns hold well-formed float values, NaN, and masked entries; string
columns hold strings no longer than the declared itemsize, and masked
entries. -/
def CellsWF (col : CDSCol) : Prop :=
  match col.dtype with
  | .i => ∀ c ∈ col.cells, c = .masked ∨ ∃ n, c = .intV n
  | .u => ∀ c ∈ col.cells, c = .masked ∨ ∃ n, c = .intV n
  | .f => ∀ c ∈ col.cells, c = .masked ∨ c = .nanV ∨ ∃ v, c = .floatV v ∧ v.WF
  | .s sz => ∃ n, sz = some n ∧
      ∀ c ∈ col.cells, c = .masked ∨ ∃ s, c = .strV s ∧ s.length ≤ n
  | .obj => False

/-- **C2** (amended).  For every column parsed with an *inferred* format (no
forced `set_format`), every value of the column is written at exactly the
recorded `size` characters, and masked/NaN values are written as all-blank
fields of that width.  (The original claim, covering forced formats too, is
refuted by `C2_forced_width_counterexample`.) -/
theorem C2_write_width_inferred (col c : CDSCol) (f : Fmtr)
    (hforce : col.forceFormat = none) (hnof : col.formatter = none)
    (hwf : CellsWF col)
    (hp : col.parse = .ok c) (hfm : c.formatter = some f) :
    c.size = some f.size ∧
    (∀ cell ∈ c.cells, (f.write cell).length = f.size) ∧
    (∀ cell ∈ c.cells, cell = .masked ∨ cell = .nanV → f.write cell = blanks f.size) := by
  have hnomem : Cell.noneV ∉ col.cells := by
    intro hmem
    unfold CellsWF at hwf
    cases hd : col.dtype with
    | i =>
      rw [hd] at hwf
      rcases hwf Cell.noneV hmem with h | ⟨n, h⟩ <;> cases h
    | u =>
      rw [hd] at hwf
      rcases hwf Cell.noneV hmem with h | ⟨n, h⟩ <;> cases h
    | f =>
      rw [hd] at hwf
      rcases hwf Cell.noneV hmem with h | h | ⟨v, h, _⟩ <;> cases h
    | s sz =>
      rw [hd] at hwf
      obtain ⟨n, _, hcells⟩ := hwf
      rcases hcells Cell.noneV hmem with h | ⟨s, h, _⟩ <;> cases h
    | obj =>
      rw [hd] at hwf
      exact hwf
  have hnone : col.cells.contains Cell.noneV = false := by
    cases hcc : col.cells.contains Cell.noneV
    · rfl
    · exact absurd (by simpa using hcc) hnomem
  have hcn : col.convertNone = col := by
    unfold CDSCol.convertNone
    rw [if_neg (fun hcond => hnomem (by simpa using hcond.2))]
  obtain ⟨f0, hbf, hceq⟩ := (parse_ok_iff hnof).mp hp
  rw [hcn] at hbf hceq
  have hfc1 : c.formatter = some f0 := by
    rw [hceq]
    unfold CDSCol.applyFormatter
    rw [hforce]
  have hfc2 : c.size = some f0.size := by
    rw [hceq]
    unfold CDSCol.applyFormatter
    rw [hforce]
  have hfc3 : c.cells = col.cells := by
    rw [hceq]
    unfold CDSCol.applyFormatter
    rw [hforce]
  rw [hfc1] at hfm
  injection hfm with hff
  subst hff
  cases hd : col.dtype with
  | i =>
    have hwf2 : ∀ cl ∈ col.cells, cl = .masked ∨ ∃ n, cl = .intV n := by
      unfold CellsWF at hwf
      rw [hd] at hwf
      exact hwf
    have hgt : col.getType = .intT := by
      unfold CDSCol.getType
      rw [hd]
    have hbfi : col.buildFormatter
        = (match cellsInt col.cells with
           | none => Except.error "TypeError: non-integer value in an integer column"
           | some vals =>
             match intFormatter vals col.isMaskedCol with
             | none => Except.error "ValueError: max of an empty column"
             | some f2 => Except.ok f2) := by
      unfold CDSCol.buildFormatter
      rw [hgt]
    rw [hbfi] at hbf
    cases hvals : cellsInt col.cells with
    | none =>
      rw [hvals] at hbf
      cases hbf
    | some vals =>
      rw [hvals] at hbf
      have hbf2 : (match intFormatter vals col.isMaskedCol with
          | none => (Except.error "ValueError: max of an empty column" : Except String Fmtr)
          | some f2 => Except.ok f2) = Except.ok f0 := hbf
      cases hif : intFormatter vals col.isMaskedCol with
      | none =>
        rw [hif] at hbf2
        cases hbf2
      | some fi =>
        rw [hif] at hbf2
        have hbf3 : Except.ok fi = Except.ok f0 := hbf2
        injection hbf3 with hfi
        subst hfi
        obtain ⟨hwl, hwm⟩ := intFormatter_write_len hif
        refine ⟨hfc2, ?_, ?_⟩
        · intro cell hcell
          rw [hfc3] at hcell
          rcases hwf2 cell hcell with rfl | ⟨n, rfl⟩
          · rw [hwm]
            exact blanks_length _
          · obtain ⟨o, ho, homem⟩ := mapO_mem hvals _ hcell
            have ho2 : (some (some n) : Option (Option Int)) = some o := ho
            injection ho2 with ho3
            subst ho3
            exact hwl n homem
        · intro cell hcell hmn
          rw [hfc3] at hcell
          rcases hmn with rfl | rfl
          · exact hwm
          · rcases hwf2 _ hcell with h | ⟨n, h⟩ <;> cases h
  | u =>
    have hwf2 : ∀ cl ∈ col.cells, cl = .masked ∨ ∃ n, cl = .intV n := by
      unfold CellsWF at hwf
      rw [hd] at hwf
      exact hwf
    have hgt : col.getType = .intT := by
      unfold CDSCol.getType
      rw [hd]
    have hbfi : col.buildFormatter
        = (match cellsInt col.cells with
           | none => Except.error "TypeError: non-integer value in an integer column"
           | some vals =>
             match intFormatter vals col.isMaskedCol with
             | none => Except.error "ValueError: max of an empty column"
             | some f2 => Except.ok f2) := by
      unfold CDSCol.buildFormatter
      rw [hgt]
    rw [hbfi] at hbf
    cases hvals : cellsInt col.cells with
    | none =>
      rw [hvals] at hbf
      cases hbf
    | some vals =>
      rw [hvals] at hbf
      have hbf2 : (match intFormatter vals col.isMaskedCol with
          | none => (Except.error "ValueError: max of an empty column" : Except String Fmtr)
          | some f2 => Except.ok f2) = Except.ok f0 := hbf
      cases hif : intFormatter vals col.isMaskedCol with
      | none =>
        rw [hif] at hbf2
        cases hbf2
      | some fi =>
        rw [hif] at hbf2
        have hbf3 : Except.ok fi = Except.ok f0 := hbf2
        injection hbf3 with hfi
        subst hfi
        obtain ⟨hwl, hwm⟩ := intFormatter_write_len hif
        refine ⟨hfc2, ?_, ?_⟩
        · intro cell hcell
          rw [hfc3] at hcell
          rcases hwf2 cell hcell with rfl | ⟨n, rfl⟩
          · rw [hwm]
            exact blanks_length _
          · obtain ⟨o, ho, homem⟩ := mapO_mem hvals _ hcell
            have ho2 : (some (some n) : Option (Option Int)) = some o := ho
            injection ho2 with ho3
            subst ho3
            exact hwl n homem
        · intro cell hcell hmn
          rw [hfc3] at hcell
          rcases hmn with rfl | rfl
          · exact hwm
          · rcases hwf2 _ hcell with h | ⟨n, h⟩ <;> cases h
  | f =>
    have hwf2 : ∀ cl ∈ col.cells,
        cl = .masked ∨ cl = .nanV ∨ ∃ v, cl = .floatV v ∧ v.WF := by
      unfold CellsWF at hwf
      rw [hd] at hwf
      exact hwf
    have hgt : col.getType = .floatT := by
      unfold CDSCol.getType
      rw [hd]
    have hbfi : col.buildFormatter = floatFormatter col.cells col.isMaskedCol := by
      unfold CDSCol.buildFormatter
      rw [hgt]
    rw [hbfi] at hbf
    obtain ⟨hwl, hwm, hwn⟩ := floatFormatter_write_len hwf2 hbf
    refine ⟨hfc2, ?_, ?_⟩
    · intro cell hcell
      rw [hfc3] at hcell
      exact hwl cell hcell
    · intro cell hcell hmn
      rcases hmn with rfl | rfl
      · exact hwm
      · exact hwn
  | s sz =>
    have hwf2 : ∃ n, sz = some n ∧
        ∀ cl ∈ col.cells, cl = .masked ∨ ∃ s2, cl = .strV s2 ∧ s2.length ≤ n := by
      unfold CellsWF at hwf
      rw [hd] at hwf
      exact hwf
    obtain ⟨n, hsz, hcells⟩ := hwf2
    have hgt : col.getType = .strT := by
      unfold CDSCol.getType
      rw [hd]
    have hbfi : col.buildFormatter
        = (match cellsStr col.cells with
           | none => Except.error "TypeError: non-string value in a string column"
           | some vals => Except.ok (strFormatter vals col.dsize col.isMaskedCol)) := by
      unfold CDSCol.buildFormatter
      rw [hgt]
    rw [hbfi] at hbf
    cases hvals : cellsStr col.cells with
    | none =>
      rw [hvals] at hbf
      cases hbf
    | some vals =>
      rw [hvals] at hbf
      have hbf3 : Except.ok (strFormatter vals col.dsize col.isMaskedCol)
          = Except.ok f0 := hbf
      injection hbf3 with hfs
      have hds : col.dsize = some n := by
        unfold CDSCol.dsize
        rw [hd, hsz]
      refine ⟨hfc2, ?_, ?_⟩
      · intro cell hcell
        rw [hfc3] at hcell
        rcases hcells cell hcell with rfl | ⟨s2, rfl, hlen⟩
        · rw [← hfs]
          show (blanks (strFormatter vals col.dsize col.isMaskedCol).size).length = _
          exact blanks_length _
        · obtain ⟨o, ho, homem⟩ := mapO_mem hvals _ hcell
          have ho2 : (some (some s2) : Option (Option (List Char))) = some o := ho
          injection ho2 with ho3
          subst ho3
          rw [← hfs]
          exact (strFormatter_write_len homem (Or.inr ⟨n, hds, hlen⟩)).1
      · intro cell hcell hmn
        rw [hfc3] at hcell
        rcases hmn with rfl | rfl
        · rw [← hfs]
          rfl
        · rcases hcells _ hcell with h | ⟨s2, h, _⟩ <;> cases h
  | obj =>
    unfold CellsWF at hwf
    rw [hd] at hwf
    exact hwf.elim

/-- Witness column for C2: masked integer column `[7, --]`. -/
def c2wcol : CDSCol := CDSCol.mk0 [.intV 7, .masked] true .i

/-- Witness for the amended C2 at the concrete masked integer column `[7, --]`. -/
theorem C2_write_width_inferred_witness :
    ∃ c f, c2wcol.parse = .ok c ∧ c.formatter = some f ∧
      c.size = some f.size ∧
      (∀ cell ∈ c.cells, (f.write cell).length = f.size) ∧
      (∀ cell ∈ c.cells, cell = .masked ∨ cell = .nanV → f.write cell = blanks f.size) := by
  obtain ⟨c, f, hc, hf⟩ : ∃ c f, c2wcol.parse = .ok c ∧ c.formatter = some f :=
    ⟨_, _, rfl, rfl⟩
  have hwf : CellsWF c2wcol := by
    intro cl hcl
    rcases List.mem_cons.mp hcl with rfl | hcl2
    · exact Or.inr ⟨7, rfl⟩
    · rcases List.mem_cons.mp hcl2 with rfl | h3
      · exact Or.inl rfl
      · cases h3
  exact ⟨c, f, hc, hf, C2_write_width_inferred c2wcol c f rfl rfl hwf hc hf⟩

/-- Counterexample column for C2: integer column `[123]` with a forced `I2`
format. -/
def c2col : CDSCol := CDSCol.mk0 [.intV 123] false .i

/-- **C2** counterexample: after `set_format("I2")` and `parse()`, the
recorded size is 2 but `write(123)` returns the 3-character string `"123"` —
the forced format breaks the width invariant the claim states for *every*
parsed column. -/
theorem C2_forced_width_counterexample :
    ((c2col.set_format "I2").bind CDSCol.parse).map
      (fun c => (c.size, c.formatter.map (fun f => (f.write (.intV 123)).length)))
      = .ok (some 2, some 3) := by rfl

/-! ## `CDSMRTTable.__parseTable` (core.py lines 353–441) -/

/-- Python `\s`. -/
def wsC (c : Char) : Bool :=
  c = ' ' || c = '\t' || c = '\n' || c = '\r' || c = '\x0b' || c = '\x0c'

def isUpperC (c : Char) : Bool := 'A' ≤ c && c ≤ 'Z'

def spDashC (c : Char) : Bool := c = ' ' || c = '-'

def digDotC (c : Char) : Bool := isDigitC c || c = '.'

def notNL (c : Char) : Bool := !(c = '\n')

/-- Leftmost-greedy backtracking over a character-class `*`: try consuming
the longest class-prefix first, then shorter ones. -/
def tryStar {α : Type} (p : Char → Bool) (s : List Char)
    (k : List Char → Option α) : Option α :=
  (List.range ((s.takeWhile p).length + 1)).findSome?
    (fun i => k (s.drop ((s.takeWhile p).length - i)))

/-- Character-class `+`: at least one character. -/
def tryPlus {α : Type} (p : Char → Bool) (s : List Char)
    (k : List Char → Option α) : Option α :=
  (List.range ((s.takeWhile p).length)).findSome?
    (fun i => k (s.drop ((s.takeWhile p).length - i)))

/-- A capturing character-class `*` group. -/
def tryStarG {α : Type} (p : Char → Bool) (s : List Char)
    (k : List Char → List Char → Option α) : Option α :=
  (List.range ((s.takeWhile p).length + 1)).findSome?
    (fun i => k (s.take ((s.takeWhile p).length - i))
                (s.drop ((s.takeWhile p).length - i)))

/-- `.*$`: any non-newline characters up to the end of the string or a final
newline. -/
def dotStarEnd (s : List Char) : Bool :=
  match s.dropWhile notNL with
  | [] => true
  | ['\n'] => true
  | _ => false

/-- `^\s*[0-9]*[ -]+([0-9]*)\s+[A-Z][0-9.]+\s+.*$` (`reg_bbb`), returning
group 1. -/
def regBBB (s : List Char) : Option (List Char) :=
  tryStar wsC s (fun s1 =>
  tryStar isDigitC s1 (fun s2 =>
  tryPlus spDashC s2 (fun s3 =>
  tryStarG isDigitC s3 (fun g1 s4 =>
  tryPlus wsC s4 (fun s5 =>
  match s5 with
  | [] => none
  | c :: s6 =>
    if isUpperC c then
      tryPlus digDotC s6 (fun s7 =>
      tryPlus wsC s7 (fun s8 =>
      if dotStarEnd s8 then some g1 else none))
    else none)))))

/-- `^[-]+$` (`reg_sep`). -/
def regSep (s : List Char) : Bool :=
  !(s.takeWhile (fun c => c = '-')).isEmpty &&
  (s.drop (s.takeWhile (fun c => c = '-')).length = [] ||
   s.drop (s.takeWhile (fun c => c = '-')).length = ['\n'])

/-- `^Note *[(][0-9]+[)].*` (`reg_not`). -/
def regNot (s : List Char) : Bool :=
  match s with
  | 'N' :: 'o' :: 't' :: 'e' :: r =>
    match r.dropWhile (fun c => c = ' ') with
    | '(' :: r3 =>
      !(r3.takeWhile isDigitC).isEmpty &&
        (match r3.drop (r3.takeWhile isDigitC).length with
         | ')' :: _ => true
         | _ => false)
    | _ => false
  | _ => false

/-- `^\s*Table\s*:\s(.*)\s*$` (`reg_tit`), returning group 1. -/
def regTit (s : List Char) : Option (List Char) :=
  tryStar wsC s (fun s1 =>
  if ['T', 'a', 'b', 'l', 'e'].isPrefixOf s1 then
    tryStar wsC (s1.drop 5) (fun s3 =>
    match s3 with
    | ':' :: c :: s5 =>
      if wsC c then
        tryStarG notNL s5 (fun g1 s6 =>
        tryStar wsC s6 (fun s7 =>
        if s7 = [] ∨ s7 = ['\n'] then some g1 else none))
      else none
    | _ => none)
  else none)

/-- `^ *Bytes *Format .*$` (`reg_bbb_head`; all boundaries are between
disjoint character classes, so maximal munch is exact). -/
def regBBBHead (s : List Char) : Bool :=
  let t1 := s.dropWhile (fun c => c = ' ')
  if ['B', 'y', 't', 'e', 's'].isPrefixOf t1 then
    let t2 := (t1.drop 5).dropWhile (fun c => c = ' ')
    if ['F', 'o', 'r', 'm', 'a', 't', ' '].isPrefixOf t2 then
      dotStarEnd (t2.drop 7)
    else false
  else false

/-- Python `str.strip()`. -/
def stripWS (l : List Char) : List Char :=
  ((l.dropWhile wsC).reverse.dropWhile wsC).reverse

def SEP_LINE : List Char := List.replicate 80 '-' ++ ['\n']

def bbbDescPrefix : List Char := ('B' : Char) ::
  "yte-by-byte Description ".data

def eqSepPrefix : List Char := "========".data

/-- The `__parseTable` loop state (`num`, `status`, `self.__bbb`,
`self.notes`, `self.__begin_data`, `line_width`, `self.description`). -/
structure MRTState where
  num : Nat
  status : Nat
  bbb : List Char
  notes : List (List Char)
  begin_data : Int
  line_width : List Char
  description : List Char
deriving DecidableEq, Repr

/-- The `if status == 2` block (also reached by fall-through from
status 1). -/
def mrtStatus2 (st : MRTState) (line : List Char) (n : Nat) : MRTState :=
  if regSep line then { st with num := n, status := 3 }
  else
    match regBBB line with
    | some g1 => { st with num := n, line_width := g1, bbb := st.bbb ++ line }
    | none => { st with num := n, bbb := st.bbb ++ line }

/-- One iteration of the `for line in fd` loop. -/
def mrtStep (st : MRTState) (line : List Char) : MRTState :=
  let n := st.num + 1
  if st.status = 5 then { st with num := n }
  else if st.status = 0 then
    match regTit line with
    | some g1 =>
      if 1 < (stripWS g1).length then { st with num := n, description := g1 }
      else { st with num := n }
    | none =>
      if bbbDescPrefix.isPrefixOf line then { st with num := n, status := 1, bbb := [] }
      else if eqSepPrefix.isPrefixOf line then { st with num := n }
      else { st with num := n, description := st.description ++ ' ' :: stripWS line }
  else if st.status = 1 then
    match regBBB line with
    | some _ => mrtStatus2 { st with status := 2 } line n
    | none =>
      if regSep line then { st with num := n }
      else if regBBBHead line then { st with num := n, bbb := st.bbb ++ line ++ SEP_LINE }
      else { st with num := n, bbb := st.bbb ++ line }
  else if st.status = 2 then mrtStatus2 st line n
  else if st.status = 3 then
    if regNot line then { st with num := n, notes := st.notes ++ [line] }
    else if st.notes.length = 0 then
      { st with num := n, status := 5, begin_data := (n : Int) }
    else if regSep line then { st with num := n, status := 4 }
    else
      { st with num := n,
                notes := st.notes.dropLast ++ [Option.getD st.notes.getLast? [] ++ line] }
  else if st.status = 4 then { st with num := n, status := 5, begin_data := (n : Int) }
  else { st with num := n }

def parseTableFold (lines : List (List Char)) (st : MRTState) : MRTState :=
  lines.foldl mrtStep st

/-- Initial state of `__parseTable` (constructor lines 329–341). -/
def mrtInit (desc : List Char) : MRTState :=
  { num := 0, status := 0, bbb := [], notes := [], begin_data := -1,
    line_width := ['0'], description := desc }

theorem mrtStep_status5 {st : MRTState} (h : st.status = 5) (line : List Char) :
    mrtStep st line = { st with num := st.num + 1 } := by
  unfold mrtStep
  rw [if_pos h]

theorem parseTableFold_status5 {lines : List (List Char)} :
    ∀ {st : MRTState}, st.status = 5 →
    parseTableFold lines st = { st with num := st.num + lines.length } := by
  induction lines with
  | nil =>
    intro st h
    obtain ⟨n, s, b, no, bd, lw, d⟩ := st
    show MRTState.mk n s b no bd lw d = _
    simp
  | cons l ls ih =>
    intro st h
    show parseTableFold ls (mrtStep st l) = _
    rw [mrtStep_status5 h]
    rw [ih (show ({ st with num := st.num + 1 } : MRTState).status = 5 from h)]
    obtain ⟨n, s, b, no, bd, lw, d⟩ := st
    simp
    omega

theorem mrtStep_note_new {st : MRTState} (h3 : st.status = 3) {line : List Char}
    (hn : regNot line = true) :
    mrtStep st line = { st with num := st.num + 1, notes := st.notes ++ [line] } := by
  unfold mrtStep
  rw [if_neg (by rw [h3]; decide), if_neg (by rw [h3]; decide),
      if_neg (by rw [h3]; decide), if_neg (by rw [h3]; decide),
      if_pos h3, if_pos hn]

theorem mrtStep_note_cont {st : MRTState} (h3 : st.status = 3) {line : List Char}
    (hn : regNot line = false) (hlen : ¬ st.notes.length = 0)
    (hs : regSep line = false) :
    mrtStep st line
      = { st with num := st.num + 1,
                  notes := st.notes.dropLast
                    ++ [Option.getD st.notes.getLast? [] ++ line] } := by
  unfold mrtStep
  rw [if_neg (by rw [h3]; decide), if_neg (by rw [h3]; decide),
      if_neg (by rw [h3]; decide), if_neg (by rw [h3]; decide),
      if_pos h3, if_neg (by rw [hn]; decide), if_neg hlen,
      if_neg (by rw [hs]; decide)]

theorem mrtStep_note_sep {st : MRTState} (h3 : st.status = 3) {line : List Char}
    (hn : regNot line = false) (hlen : ¬ st.notes.length = 0)
    (hs : regSep line = true) :
    mrtStep st line = { st with num := st.num + 1, status := 4 } := by
  unfold mrtStep
  rw [if_neg (by rw [h3]; decide), if_neg (by rw [h3]; decide),
      if_neg (by rw [h3]; decide), if_neg (by rw [h3]; decide),
      if_pos h3, if_neg (by rw [hn]; decide), if_neg hlen, if_pos hs]

theorem mrtStep_status4 {st : MRTState} (h4 : st.status = 4) (line : List Char) :
    mrtStep st line
      = { st with num := st.num + 1, status := 5,
                  begin_data := ((st.num + 1 : Nat) : Int) } := by
  unfold mrtStep
  rw [if_neg (by rw [h4]; decide), if_neg (by rw [h4]; decide),
      if_neg (by rw [h4]; decide), if_neg (by rw [h4]; decide),
      if_neg (by rw [h4]; decide), if_pos h4]

/-- **C6.** When the header parser is in the notes state, a `Note (1)` line
followed by one continuation line, then a pure-dash separator line and a data
line, yields: the note stored as the concatenation of the two physical lines
with all whitespace preserved, and the recorded first data line equal to the
note block's last line number plus 2. -/
theorem C6_two_line_note_begin_data (st : MRTState) (l1 l2 l3 l4 : List Char)
    (rest : List (List Char))
    (h3 : st.status = 3)
    (hn1 : regNot l1 = true)
    (hn2 : regNot l2 = false) (hs2 : regSep l2 = false)
    (hn3 : regNot l3 = false) (hs3 : regSep l3 = true) :
    (parseTableFold (l1 :: l2 :: l3 :: l4 :: rest) st).notes
        = st.notes ++ [l1 ++ l2] ∧
    (parseTableFold (l1 :: l2 :: l3 :: l4 :: rest) st).begin_data
        = ((st.num + 2 : Nat) : Int) + 2 ∧
    (parseTableFold (l1 :: l2 :: l3 :: l4 :: rest) st).status = 5 := by
  have hshow : parseTableFold (l1 :: l2 :: l3 :: l4 :: rest) st
      = parseTableFold rest (mrtStep (mrtStep (mrtStep (mrtStep st l1) l2) l3) l4) := rfl
  rw [hshow, mrtStep_note_new h3 hn1]
  rw [@mrtStep_note_cont
        (MRTState.mk (st.num + 1) st.status st.bbb (st.notes ++ [l1])
          st.begin_data st.line_width st.description)
        h3 l2 hn2 (by show ¬ (st.notes ++ [l1]).length = 0; simp) hs2]
  simp only [List.dropLast_concat, List.getLast?_concat, Option.getD_some]
  rw [@mrtStep_note_sep
        (MRTState.mk (st.num + 1 + 1) st.status st.bbb (st.notes ++ [l1 ++ l2])
          st.begin_data st.line_width st.description)
        h3 l3 hn3 (by show ¬ (st.notes ++ [l1 ++ l2]).length = 0; simp) hs3]
  rw [@mrtStep_status4
        (MRTState.mk (st.num + 1 + 1 + 1) 4 st.bbb (st.notes ++ [l1 ++ l2])
          st.begin_data st.line_width st.description)
        rfl l4]
  rw [@parseTableFold_status5 rest
        (MRTState.mk (st.num + 1 + 1 + 1 + 1) 5 st.bbb (st.notes ++ [l1 ++ l2])
          ((st.num + 1 + 1 + 1 + 1 : Nat) : Int) st.line_width st.description)
        rfl]
  refine ⟨rfl, ?_, rfl⟩
  show ((st.num + 1 + 1 + 1 + 1 : Nat) : Int) = ((st.num + 2 : Nat) : Int) + 2
  omega

/-- A 14-line MRT file: title, separator, byte-by-byte block, one
`Note (1)` spanning two physical lines, a dash separator, then two data
lines. -/
def c6pre : List (List Char) :=
  ["Table: Example catalog\n".data,
   List.replicate 80 '=' ++ ['\n'],
   "Byte-by-byte Description of file: table.dat\n".data,
   List.replicate 80 '-' ++ ['\n'],
   "   Bytes Format Units  Label    Explanations\n".data,
   List.replicate 80 '-' ++ ['\n'],
   "  1-  5 I5     ---    ID       Identifier\n".data,
   "  7- 10 F4.1   ---    Val      Value\n".data,
   List.replicate 80 '-' ++ ['\n']]

def c6l10 : List Char := "Note (1): first note line\n".data

def c6l11 : List Char := "    continuation of the note\n".data

def c6l12 : List Char := List.replicate 80 '-' ++ ['\n']

def c6l13 : List Char := "  1  10.0\n".data

def c6l14 : List Char := "  2  20.5\n".data

/-- Witness for C6 on the concrete 14-line MRT header: after the first nine
lines the parser is in the notes state at line 9; the note is stored as
line 10 concatenated with line 11, and the first data line is 13 = 11 + 2. -/
theorem C6_two_line_note_begin_data_witness :
    regNot c6l10 = true ∧ regSep c6l12 = true ∧
    (parseTableFold c6pre (mrtInit [])).status = 3 ∧
    (parseTableFold c6pre (mrtInit [])).num = 9 ∧
    ((parseTableFold (c6l10 :: c6l11 :: c6l12 :: c6l13 :: [c6l14])
        (parseTableFold c6pre (mrtInit []))).notes
      = (parseTableFold c6pre (mrtInit [])).notes ++ [c6l10 ++ c6l11] ∧
     (parseTableFold (c6l10 :: c6l11 :: c6l12 :: c6l13 :: [c6l14])
        (parseTableFold c6pre (mrtInit []))).begin_data
      = (((parseTableFold c6pre (mrtInit [])).num + 2 : Nat) : Int) + 2 ∧
     (parseTableFold (c6l10 :: c6l11 :: c6l12 :: c6l13 :: [c6l14])
        (parseTableFold c6pre (mrtInit []))).status = 5) ∧
    (parseTableFold (c6l10 :: c6l11 :: c6l12 :: c6l13 :: [c6l14])
        (parseTableFold c6pre (mrtInit []))).begin_data = (13 : Int) :=
  ⟨rfl, rfl, rfl, rfl,
   C6_two_line_note_begin_data (parseTableFold c6pre (mrtInit []))
     c6l10 c6l11 c6l12 c6l13 [c6l14] rfl rfl rfl rfl rfl rfl,
   rfl⟩

/-! ## `CDSMRTTable.__bytebybytes_statistics` (core.py lines 454–494) -/

def dsdC (c : Char) : Bool := isDigitC c || c = ' ' || c = '-'

def nonWsC (c : Char) : Bool := !wsC c

/-- `re.sub(r"[?]=[^ \[]", "", s)`: remove every `?=X` with `X` neither a
space nor `[`, scanning left to right. -/
def subQE : List Char → List Char
  | '?' :: '=' :: c :: rest =>
    if c = ' ' ∨ c = '[' then '?' :: '=' :: subQE (c :: rest) else subQE rest
  | x :: rest => x :: subQE rest
  | [] => []

/-- `^(\s*[\d \-]*\d\s+[A-Z][0-9.]*\s+[^\s]+\s+[^\s]+\s+)(.*$)$` (the
`regbbb` of the statistics pass), returning groups 1 and 2. -/
def regStats (s : List Char) : Option (List Char × List Char) :=
  tryStar wsC s (fun s1 =>
  tryStar dsdC s1 (fun s2 =>
  match s2 with
  | [] => none
  | c :: s3 =>
    if isDigitC c then
      tryPlus wsC s3 (fun s4 =>
      match s4 with
      | [] => none
      | c2 :: s5 =>
        if isUpperC c2 then
          tryStar digDotC s5 (fun s6 =>
          tryPlus wsC s6 (fun s7 =>
          tryPlus nonWsC s7 (fun s8 =>
          tryPlus wsC s8 (fun s9 =>
          tryPlus nonWsC s9 (fun s10 =>
          tryPlus wsC s10 (fun s11 =>
          if dotStarEnd s11 then
            some (s.take (s.length - s11.length), s11.takeWhile notNL)
          else none))))))
        else none)
    else none))

/-- `__check_statistics`: after removing `?=X` shorthands and left-stripping,
does the description start with a `[...]` bracket? -/
def checkStatistics (desc : List Char) : Bool :=
  match (subQE desc).dropWhile wsC with
  | '[' :: r => r.contains ']'
  | _ => false

/-- `str()` of a stored bound. -/
def numStr : NumV → List Char
  | .iv n => intStr n
  | .rv v => v.render

def fmtrDefault : Fmtr :=
  { kind := .strK, ffmt := "", size := 0, ofmt := .oStr 0, min := none, max := none }

/-- Python `"s".split("\n")` (keeps empty pieces). -/
def splitNL : List Char → List (List Char)
  | [] => [[]]
  | '\n' :: rest => [] :: splitNL rest
  | c :: rest =>
    match splitNL rest with
    | l :: ls => (c :: l) :: ls
    | [] => [[c]]

/-- Python `"\n".join(ls)`. -/
def joinNL : List (List Char) → List Char
  | [] => []
  | [l] => l
  | l :: ls => l ++ '\n' :: joinNL ls

/-- Outcome of the statistics loop: early `return` on a column-count
mismatch, an uncaught exception (empty group 2), or normal completion. -/
inductive StatsOut where
  | aborted : StatsOut
  | crashed : String → StatsOut
  | done : Nat → List (List Char) → StatsOut
deriving DecidableEq, Repr

/-- `line.replace('?=""', '?')`. -/
def replaceQE : List Char → List Char
  | '?' :: '=' :: '"' :: '"' :: rest => '?' :: replaceQE rest
  | x :: rest => x :: replaceQE rest
  | [] => []

/-- The `for line in bbb_in` loop of `__bytebybytes_statistics`. -/
def bbbStatsLoop (cols : List Fmtr) :
    List (List Char) → Nat → List (List Char) → StatsOut
  | [], ncol, acc => .done ncol acc
  | line :: rest, ncol, acc =>
    match regStats (replaceQE line) with
    | none => bbbStatsLoop cols rest ncol (acc ++ [replaceQE line])
    | some (g1, g2) =>
      if cols.length ≤ ncol then .aborted
      else
        if checkStatistics g2 = false then
          match (cols.getD ncol fmtrDefault).min, (cols.getD ncol fmtrDefault).max with
          | some mn, some mx =>
            if g2 = [] then .crashed "IndexError: string index out of range"
            else
              bbbStatsLoop cols rest (ncol + 1)
                (acc ++ [g1 ++ '[' :: numStr mn ++ '/' :: numStr mx ++ [']']
                  ++ (if g2.head? = some '?' then [] else [' '])
                  ++ g2.dropWhile wsC])
          | _, _ => bbbStatsLoop cols rest (ncol + 1) (acc ++ [replaceQE line])
        else bbbStatsLoop cols rest (ncol + 1) (acc ++ [replaceQE line])

/-- `__bytebybytes_statistics` acting on the stored byte-by-byte text: the
final `"\n".join(...) + "\n"` is only installed when every descriptor was
used; early return and exceptions leave the text untouched. -/
def bbbStats (bbb : List Char) (cols : List Fmtr) : List Char :=
  match bbbStatsLoop cols (splitNL bbb) 0 [] with
  | .done ncol acc => if ncol = cols.length then joinNL acc ++ ['\n'] else bbb
  | _ => bbb

/-- Number of column-spec lines of the byte-by-byte text (lines the
statistics regex matches after the `?=""` shorthand replacement). -/
def specCount (lines : List (List Char)) : Nat :=
  (lines.filter (fun l => (regStats (replaceQE l)).isSome)).length

theorem bbbStatsLoop_overflow {cols : List Fmtr} :
    ∀ (lines : List (List Char)) (ncol : Nat) (acc : List (List Char)),
    ncol ≤ cols.length → cols.length < ncol + specCount lines →
    bbbStatsLoop cols lines ncol acc = .aborted ∨
    ∃ e, bbbStatsLoop cols lines ncol acc = .crashed e := by
  intro lines
  induction lines with
  | nil =>
    intro ncol acc h1 h2
    exfalso
    unfold specCount at h2
    simp at h2
    omega
  | cons line rest ih =>
    intro ncol acc h1 h2
    cases hm : regStats (replaceQE line) with
    | none =>
      have hc : specCount (line :: rest) = specCount rest := by
        unfold specCount
        rw [List.filter_cons_of_neg (by simp [hm])]
      have key : bbbStatsLoop cols (line :: rest) ncol acc
          = bbbStatsLoop cols rest ncol (acc ++ [replaceQE line]) := by
        simp only [bbbStatsLoop]
        rw [hm]
      rw [key]
      exact ih ncol _ h1 (by omega)
    | some p =>
      obtain ⟨g1, g2⟩ := p
      have hc : specCount (line :: rest) = specCount rest + 1 := by
        unfold specCount
        rw [List.filter_cons_of_pos (by simp [hm])]
        simp
      by_cases hov : cols.length ≤ ncol
      · left
        have key : bbbStatsLoop cols (line :: rest) ncol acc = .aborted := by
          simp only [bbbStatsLoop]
          rw [hm]
          simp only []
          rw [if_pos hov]
        exact key
      · have h1' : ncol + 1 ≤ cols.length := by omega
        have h2' : cols.length < (ncol + 1) + specCount rest := by omega
        by_cases hcs : checkStatistics g2 = false
        · cases hmn : (cols.getD ncol fmtrDefault).min with
          | none =>
            have key : bbbStatsLoop cols (line :: rest) ncol acc
                = bbbStatsLoop cols rest (ncol + 1) (acc ++ [replaceQE line]) := by
              simp only [bbbStatsLoop]
              rw [hm]
              simp only []
              rw [if_neg hov, if_pos hcs, hmn]
            rw [key]
            exact ih (ncol + 1) _ h1' h2'
          | some mn =>
            cases hmx : (cols.getD ncol fmtrDefault).max with
            | none =>
              have key : bbbStatsLoop cols (line :: rest) ncol acc
                  = bbbStatsLoop cols rest (ncol + 1) (acc ++ [replaceQE line]) := by
                simp only [bbbStatsLoop]
                rw [hm]
                simp only []
                rw [if_neg hov, if_pos hcs, hmn, hmx]
              rw [key]
              exact ih (ncol + 1) _ h1' h2'
            | some mx =>
              by_cases hg2 : g2 = []
              · right
                refine ⟨"IndexError: string index out of range", ?_⟩
                simp only [bbbStatsLoop]
                rw [hm]
                simp only []
                rw [if_neg hov, if_pos hcs, hmn, hmx]
                simp only []
                rw [if_pos hg2]
              · have key : bbbStatsLoop cols (line :: rest) ncol acc
                    = bbbStatsLoop cols rest (ncol + 1)
                        (acc ++ [g1 ++ '[' :: numStr mn ++ '/' :: numStr mx ++ [']']
                          ++ (if g2.head? = some '?' then [] else [' '])
                          ++ g2.dropWhile wsC]) := by
                  simp only [bbbStatsLoop]
                  rw [hm]
                  simp only []
                  rw [if_neg hov, if_pos hcs, hmn, hmx]
                  simp only []
                  rw [if_neg hg2]
                rw [key]
                exact ih (ncol + 1) _ h1' h2'
        · have key : bbbStatsLoop cols (line :: rest) ncol acc
              = bbbStatsLoop cols rest (ncol + 1) (acc ++ [replaceQE line]) := by
            simp only [bbbStatsLoop]
            rw [hm]
            simp only []
            rw [if_neg hov, if_neg hcs]
          rw [key]
          exact ih (ncol + 1) _ h1' h2'

/-- **C7.** If the byte-by-byte text holds more column-spec lines than there
are parsed column descriptors, the bound-injection pass aborts (or dies on
the IndexError of an empty description), every partial annotation is
discarded, and the stored byte-by-byte text remains character-for-character
the original. -/
theorem C7_statistics_abort_keeps_text (bbb : List Char) (cols : List Fmtr)
    (h : cols.length < specCount (splitNL bbb)) :
    bbbStats bbb cols = bbb := by
  rcases @bbbStatsLoop_overflow cols (splitNL bbb) 0 []
      (Nat.zero_le _) (by omega) with ha | ⟨e, he⟩
  · unfold bbbStats
    rw [ha]
  · unfold bbbStats
    rw [he]

/-- Witness byte-by-byte text: two column-spec lines. -/
def c7bbb : List Char :=
  "  1-  5 I5     ---    ID       Identifier\n  7- 10 F4.1   ---    Val      Value".data

/-- Witness descriptor list: a single parsed column. -/
def c7cols : List Fmtr :=
  [{ kind := .intK, ffmt := "I5", size := 5, ofmt := .oInt 5,
     min := some (.iv 1), max := some (.iv 5) }]

/-- Witness for C7: two spec lines and one descriptor — the first line is
annotated into the pending output, then the second line aborts the pass and
the stored text is exactly the original. -/
theorem C7_statistics_abort_keeps_text_witness :
    specCount (splitNL c7bbb) = 2 ∧ c7cols.length = 1 ∧
    bbbStatsLoop c7cols (splitNL c7bbb) 0 [] = .aborted ∧
    bbbStats c7bbb c7cols = c7bbb :=
  ⟨rfl, rfl, rfl,
   C7_statistics_abort_keeps_text c7bbb c7cols
     (by rw [show specCount (splitNL c7bbb) = 2 from rfl]; decide)⟩

/-! ## `CDSTablesMaker.printByteByByte` bound annotation (core.py 858–875) -/

def MAX_COL_INT_LIMIT : Int := 10000000

/-- Python truthiness of a stored bound (`if column.min and column.max:`):
`None`, integer 0 and float 0.0 are all falsy. -/
def truthyNum : Option NumV → Bool
  | none => false
  | some (.iv n) => n ≠ 0
  | some (.rv v) => !v.isZeroMant

/-- `str()` of `N/100` for an integer `N` (the two-decimal floored/ceiled
bounds; fixed-notation range). -/
def render2 (N : Int) : List Char :=
  (if N < 0 then ['-'] else []) ++ natDigitChars (N.natAbs / 100) ++
    '.' :: (if N.natAbs % 100 = 0 then ['0']
            else if N.natAbs % 100 % 10 = 0 then natDigitChars (N.natAbs % 100 / 10)
            else if N.natAbs % 100 < 10 then '0' :: natDigitChars (N.natAbs % 100)
            else natDigitChars (N.natAbs % 100))

/-- `math.floor(v*100)` on the exact value of the rendering. -/
def floor100 (v : PyFloat) : Int :=
  if 0 ≤ v.scaledExp + 2 then v.scaledNum * pow10 (v.scaledExp + 2).toNat
  else Int.fdiv v.scaledNum (pow10 (-(v.scaledExp + 2)).toNat)

/-- `math.ceil(v*100)`. -/
def ceil100 (v : PyFloat) : Int :=
  if 0 ≤ v.scaledExp + 2 then v.scaledNum * pow10 (v.scaledExp + 2).toNat
  else -(Int.fdiv (-v.scaledNum) (pow10 (-(v.scaledExp + 2)).toNat))

/-- The `borne` string of a non-sexagesimal column: guarded by the
*truthiness* of both bounds; the `MAX_COL_INT_LIMIT` magnitude guard applies
only to the `I` branch; `E`/`F` formats floor/ceil the bounds to 2 decimal
places unconditionally. -/
def borneOf (ff0 : Char) (mn mx : Option NumV) : List Char :=
  if truthyNum mn && truthyNum mx then
    if ff0 = 'I' then
      match mn, mx with
      | some (.iv mni), some (.iv mxi) =>
        if (mni.natAbs : Int) < MAX_COL_INT_LIMIT ∧
            (mxi.natAbs : Int) < MAX_COL_INT_LIMIT then
          if mni = mxi then '[' :: intStr mni ++ [']']
          else '[' :: intStr mni ++ '/' :: intStr mxi ++ [']']
        else []
      | _, _ => []
    else if ff0 = 'E' ∨ ff0 = 'F' then
      match mn, mx with
      | some (.rv mnf), some (.rv mxf) =>
        '[' :: render2 (floor100 mnf) ++ '/' :: render2 (ceil100 mxf) ++ [']']
      | _, _ => []
    else []
  else []

/-- `"{0}{1} {2}".format(borne, nullflag, description)`. -/
def bbbDescription (ff0 : Char) (mn mx : Option NumV) (hasNull : Bool)
    (desc : List Char) : List Char :=
  borneOf ff0 mn mx ++ (if hasNull then ['?'] else []) ++ ' ' :: desc

/-- **C8** counterexample: an integer column with bounds min = 0, max = 5 —
both bounds exist and are far below the magnitude guard, so the claim
requires the `[0/5]` annotation, but `if column.min and column.max:` is
Python truthiness and the zero bound suppresses the annotation entirely. -/
theorem C8_zero_bound_no_annotation_counterexample :
    borneOf 'I' (some (.iv 0)) (some (.iv 5)) = [] ∧
    bbbDescription 'I' (some (.iv 0)) (some (.iv 5)) false ('I' :: ['D'])
      = [' ', 'I', 'D'] := by
  constructor <;> rfl

/-- **C8** (amended).  In the byte-by-byte line of a non-sexagesimal column
the description is prefixed by a bound annotation exactly when both bounds
are present and *truthy* (nonzero — a zero bound suppresses it); for `I`
formats the annotation additionally requires both magnitudes below
10,000,000 and collapses to `[min]` when the bounds coincide; for `E`/`F`
formats there is no magnitude guard and the bounds are floored/ceiled to 2
decimal places; the `?` flag appears exactly when the column is nullable. -/
theorem C8_bound_annotation_characterization :
    (∀ mni mxi : Int,
      (borneOf 'I' (some (.iv mni)) (some (.iv mxi)) ≠ [] ↔
        mni ≠ 0 ∧ mxi ≠ 0 ∧ (mni.natAbs : Int) < MAX_COL_INT_LIMIT ∧
          (mxi.natAbs : Int) < MAX_COL_INT_LIMIT)) ∧
    (∀ mni mxi : Int, mni ≠ 0 → mxi ≠ 0 →
      (mni.natAbs : Int) < MAX_COL_INT_LIMIT →
      (mxi.natAbs : Int) < MAX_COL_INT_LIMIT →
      borneOf 'I' (some (.iv mni)) (some (.iv mxi))
        = if mni = mxi then '[' :: intStr mni ++ [']']
          else '[' :: intStr mni ++ '/' :: intStr mxi ++ [']']) ∧
    (∀ ff0 : Char, (ff0 = 'E' ∨ ff0 = 'F') → ∀ mnf mxf : PyFloat,
      ¬ mnf.isZeroMant = true → ¬ mxf.isZeroMant = true →
      borneOf ff0 (some (.rv mnf)) (some (.rv mxf))
        = '[' :: render2 (floor100 mnf) ++ '/' :: render2 (ceil100 mxf) ++ [']']) ∧
    (∀ (ff0 : Char) (mn : Option NumV),
      borneOf ff0 mn none = [] ∧ borneOf ff0 none mn = []) ∧
    (∀ (ff0 : Char) (mn mx : Option NumV) (desc : List Char),
      bbbDescription ff0 mn mx true desc = borneOf ff0 mn mx ++ '?' :: ' ' :: desc ∧
      bbbDescription ff0 mn mx false desc = borneOf ff0 mn mx ++ ' ' :: desc) := by
  refine ⟨?_, ?_, ?_, ?_, ?_⟩
  · intro mni mxi
    by_cases h1 : mni = 0
    · subst h1
      simp [borneOf, truthyNum]
    by_cases h2 : mxi = 0
    · subst h2
      simp [borneOf, truthyNum]
    by_cases hg : (mni.natAbs : Int) < MAX_COL_INT_LIMIT ∧
        (mxi.natAbs : Int) < MAX_COL_INT_LIMIT
    · constructor
      · intro _
        exact ⟨h1, h2, hg.1, hg.2⟩
      · intro _
        simp only [borneOf, truthyNum]
        rw [if_pos (by simp [h1, h2])]
        simp only [if_true]
        rw [if_pos hg]
        split <;> simp
    · constructor
      · intro hne
        exfalso
        apply hne
        simp only [borneOf, truthyNum]
        rw [if_pos (by simp [h1, h2])]
        simp only [if_true]
        rw [if_neg hg]
      · intro hc
        exact absurd ⟨hc.2.2.1, hc.2.2.2⟩ hg
  · intro mni mxi h1 h2 hga hgb
    simp only [borneOf, truthyNum]
    rw [if_pos (by simp [h1, h2])]
    simp only [if_true]
    rw [if_pos ⟨hga, hgb⟩]
  · intro ff0 hf mnf mxf hz1 hz2
    have hne : ¬ ff0 = 'I' := by
      rcases hf with rfl | rfl <;> decide
    simp only [borneOf, truthyNum]
    rw [if_pos (by simp [hz1, hz2]), if_neg hne, if_pos hf]
  · intro ff0 mn
    constructor
    · simp [borneOf, truthyNum]
    · simp [borneOf, truthyNum]
  · intro ff0 mn mx desc
    constructor <;> simp [bbbDescription]

/-- Float bound 1.234 for the C8 witness. -/
def c8mn : PyFloat := ⟨false, ['1'], ['2', '3', '4'], none⟩

/-- Float bound 5.678 for the C8 witness. -/
def c8mx : PyFloat := ⟨false, ['5'], ['6', '7', '8'], none⟩

/-- Witness for the amended C8: integer bounds 1/5 give `[1/5]`, float
bounds 1.234/5.678 give `[1.23/5.68]`, and a nullable column gets the `?`
flag between the annotation and the description. -/
theorem C8_bound_annotation_characterization_witness :
    borneOf 'I' (some (.iv 1)) (some (.iv 5))
      = (if (1 : Int) = 5 then '[' :: intStr 1 ++ [']']
         else '[' :: intStr 1 ++ '/' :: intStr 5 ++ [']']) ∧
    borneOf 'I' (some (.iv 1)) (some (.iv 5)) = ['[', '1', '/', '5', ']'] ∧
    borneOf 'F' (some (.rv c8mn)) (some (.rv c8mx))
      = '[' :: render2 (floor100 c8mn) ++ '/' :: render2 (ceil100 c8mx) ++ [']'] ∧
    borneOf 'F' (some (.rv c8mn)) (some (.rv c8mx))
      = ['[', '1', '.', '2', '3', '/', '5', '.', '6', '8', ']'] ∧
    bbbDescription 'I' (some (.iv 1)) (some (.iv 5)) true ['I', 'D']
      = borneOf 'I' (some (.iv 1)) (some (.iv 5)) ++ '?' :: ' ' :: ['I', 'D'] := by
  refine ⟨?_, rfl, ?_, rfl, ?_⟩
  · exact C8_bound_annotation_characterization.2.1 1 5 (by decide) (by decide)
      (by decide) (by decide)
  · exact C8_bound_annotation_characterization.2.2.1 'F' (Or.inr rfl) c8mn c8mx
      (by decide) (by decide)
  · exact (C8_bound_annotation_characterization.2.2.2.2 'I' (some (.iv 1))
      (some (.iv 5)) ['I', 'D']).1
